import Mathlib

/-
  Verification of the auction orchestrator in
  src/hera/wasserstein/auction_runner_gs.hpp (AuctionRunnerGS).

  The C++ class is a template over the scalar type `R`, the oracle type `AO`
  and the point-container type `PC`.  The embedding mirrors that genericity:
  scalars become `ℚ` (exact arithmetic in place of `double`), the oracle
  becomes an abstract state type `σ` together with a record of operations
  `OracleOps σ`, and the ground-distance function `dist_lp`, `std::pow`
  (written `powr`), `std::numeric_limits<Real>::max()` (written `real_max`)
  and the id-translation helpers are abstract fields of an environment
  `AuctionEnv σ`.  The sentinel `k_invalid_index` stored in the two
  assignment vectors is embedded as `Option ℕ` with `none` as the sentinel.
  The unbounded bidding loop of one phase is embedded with explicit fuel;
  exhausting the fuel is reported as the distinguished error
  `AuctionError.fuelExhausted`, which never corresponds to a normal C++
  execution.  C++ exceptions become `Except AuctionError`.
-/

namespace HeraWS

/-- Errors raised by the runner: `invalidIdx` models the
`std::runtime_error` thrown by `get_item_bidder_cost`, `maxIterExceeded`
models the `"Maximum iteration number exceeded"` error of `run_auction`,
`fuelExhausted` and `emptyUnassignedSet` are artifacts of the fuelled
embedding of the unbounded bidding loop. -/
inductive AuctionError where
  | invalidIdx
  | maxIterExceeded
  | fuelExhausted
  | emptyUnassignedSet
deriving DecidableEq

/-- The fields of `AuctionParams` read by `AuctionRunnerGS`. -/
structure AuctionParams where
  wasserstein_power : ℚ
  delta : ℚ
  internal_p : ℚ
  dim : ℕ
  initial_epsilon : ℚ
  epsilon_common_ratio : ℚ
  max_num_phases : ℕ
  tolerate_max_iter_exceeded : Bool
  return_matching : Bool
deriving DecidableEq

/-- The result accumulator written by the runner. -/
structure AuctionResult where
  cost : ℚ
  distance : ℚ
  num_rounds : ℕ
  num_phases : ℕ
  start_epsilon : ℚ
  final_epsilon : ℚ
  final_relative_error : ℚ
  prices : List ℚ
  matching : List (ℤ × ℤ)
deriving DecidableEq

/-- Zero-initialized result, as default-constructed in C++. -/
def AuctionResult.initial : AuctionResult := ⟨0, 0, 0, 0, 0, 0, 0, [], []⟩

/-- The oracle capability contract used by the runner
(`get_optimal_bid`, `set_price`, `adjust_prices`, `get_prices`,
`set_prices`, `max_val_`).  Epsilon is owned by the oracle in the C++ code
but is read and written only by the orchestrator through
`get_epsilon`/`set_epsilon`; the embedding therefore threads the epsilon
value explicitly through the runner state and passes the current epsilon to
each oracle operation. -/
structure OracleOps (σ : Type) where
  get_optimal_bid : ℚ → σ → ℕ → ℕ × ℚ
  set_price : ℚ → σ → ℕ → ℚ → σ
  adjust_prices : ℚ → σ → σ
  get_prices : σ → List ℚ
  set_prices : σ → List ℚ → σ
  max_val : σ → ℚ

/-- The ambient template parameters of `AuctionRunnerGS`: the oracle
operations, `std::pow` (as `powr`), the ground distance `dist_lp`
(taking bidder index, item index, `internal_p` and `dim`),
`std::numeric_limits<Real>::max()` (as `real_max`), and the id-translation
helpers used when materializing the matching. -/
structure AuctionEnv (σ : Type) where
  ops : OracleOps σ
  powr : ℚ → ℚ → ℚ
  dist_lp : ℕ → ℕ → ℚ → ℕ → ℚ
  real_max : ℚ
  get_bidder_id : ℕ → ℤ
  get_item_id : Option ℕ → ℤ

/-- The mutable state of one `AuctionRunnerGS` instance:
`bidders_to_items`, `items_to_bidders` (vectors of sentinel-valued
indices), `unassigned_bidders` (a `std::set` of bidder indices),
the oracle-owned epsilon, the oracle state, the result accumulator,
and the `is_distance_computed` flag. -/
structure RunnerState (σ : Type) where
  bidders_to_items : List (Option ℕ)
  items_to_bidders : List (Option ℕ)
  unassigned_bidders : Finset ℕ
  oracle_epsilon : ℚ
  oracle : σ
  result : AuctionResult
  is_distance_computed : Bool
deriving DecidableEq

variable {σ : Type}

/-- The member initializers of the constructor: both index vectors are
filled with the invalid sentinel, the unassigned set starts empty, and a
non-empty `prices` argument seeds the oracle through `set_prices`. -/
def initial_state (E : AuctionEnv σ) (N : ℕ) (prices : List ℚ) (st0 : σ) : RunnerState σ :=
  { bidders_to_items := List.replicate N none
    items_to_bidders := List.replicate N none
    unassigned_bidders := ∅
    oracle_epsilon := 0
    oracle := if prices = [] then st0 else E.ops.set_prices st0 prices
    result := AuctionResult.initial
    is_distance_computed := false }

/-- The parameter fix-ups performed in the constructor body:
`epsilon_common_ratio == 0` is replaced by `5`, and
`initial_epsilon == 0` is replaced by `oracle.max_val_ / 4`. -/
def fixup_params (E : AuctionEnv σ) (params : AuctionParams) (oracle : σ) : AuctionParams :=
  let params :=
    if params.epsilon_common_ratio = 0 then { params with epsilon_common_ratio := 5 } else params
  if params.initial_epsilon = 0 then
    { params with initial_epsilon := E.ops.max_val oracle / 4 }
  else params

/-- The constructor `AuctionRunnerGS(A, B, params, prices)`:
builds the initial state and the fixed-up parameter record.  The debug
assertions on positivity and on `A.size() == B.size()` are compiled out
of release builds and are not modelled. -/
def AuctionRunnerGS_mk (E : AuctionEnv σ) (params : AuctionParams) (N : ℕ)
    (prices : List ℚ) (st0 : σ) : AuctionParams × RunnerState σ :=
  let s := initial_state E N prices st0
  (fixup_params E params s.oracle, s)

/-- `assign_item_to_bidder(item_idx, bidder_idx)`: increments the round
counter, records the new owner in both vectors, removes the bidder from
the unassigned set, and, if the item previously had an owner, clears that
owner's entry and returns it to the unassigned set. -/
def assign_item_to_bidder (s : RunnerState σ) (item_idx bidder_idx : ℕ) : RunnerState σ :=
  let s := { s with result := { s.result with num_rounds := s.result.num_rounds + 1 } }
  let old_item_owner := s.items_to_bidders.getD item_idx none
  let s := { s with
    bidders_to_items := s.bidders_to_items.set bidder_idx (some item_idx)
    items_to_bidders := s.items_to_bidders.set item_idx (some bidder_idx)
    unassigned_bidders := s.unassigned_bidders.erase bidder_idx }
  match old_item_owner with
  | some old => { s with
      bidders_to_items := s.bidders_to_items.set old none
      unassigned_bidders := insert old s.unassigned_bidders }
  | none => s

/-- `flush_assignment()`: clears both vectors to the sentinel, repopulates
the unassigned set with all `N` bidders (the code asserts the set is empty
at this point), and calls `oracle.adjust_prices()`. -/
def flush_assignment (E : AuctionEnv σ) (N : ℕ) (s : RunnerState σ) : RunnerState σ :=
  { s with
    bidders_to_items := s.bidders_to_items.map (fun _ => none)
    items_to_bidders := s.items_to_bidders.map (fun _ => none)
    unassigned_bidders := Finset.range N
    oracle := E.ops.adjust_prices s.oracle_epsilon s.oracle }

/-- The do-while bidding loop of `run_auction_phase`: pick the first
unassigned bidder (`*unassigned_bidders.begin()`, the minimum of the
`std::set`), query the oracle for its optimal bid, assign, set the price,
and repeat until no bidder is unassigned.  `fuel` bounds the number of
rounds of the embedding; the C++ loop is unbounded. -/
def phase_loop (E : AuctionEnv σ) : ℕ → RunnerState σ → Except AuctionError (RunnerState σ)
  | 0, _ => .error .fuelExhausted
  | fuel + 1, s =>
    if h : s.unassigned_bidders.Nonempty then
      let bidder_idx := s.unassigned_bidders.min' h
      let optimal_bid := E.ops.get_optimal_bid s.oracle_epsilon s.oracle bidder_idx
      let s1 := assign_item_to_bidder s optimal_bid.1 bidder_idx
      let s2 := { s1 with
        oracle := E.ops.set_price s1.oracle_epsilon s1.oracle optimal_bid.1 optimal_bid.2 }
      if s2.unassigned_bidders = ∅ then .ok s2 else phase_loop E fuel s2
    else .error .emptyUnassignedSet

/-- `run_auction_phase()`: increments `result.num_phases`, then drives the
bidding loop to a perfect matching. -/
def run_auction_phase (E : AuctionEnv σ) (fuel : ℕ) (s : RunnerState σ) :
    Except AuctionError (RunnerState σ) :=
  phase_loop E fuel { s with result := { s.result with num_phases := s.result.num_phases + 1 } }

/-- `get_item_bidder_cost(item_idx, bidder_idx, tolerate_invalid_idx)`:
if both indices are valid, returns
`pow(dist_lp(bidders[bidder_idx], items[item_idx], internal_p, dim), wasserstein_power)`;
otherwise returns `0` under the tolerate flag and throws without it. -/
def get_item_bidder_cost (E : AuctionEnv σ) (params : AuctionParams)
    (item_idx bidder_idx : Option ℕ) (tolerate_invalid_idx : Bool) : Except AuctionError ℚ :=
  if item_idx ≠ none ∧ bidder_idx ≠ none then
    .ok (E.powr (E.dist_lp (bidder_idx.getD 0) (item_idx.getD 0) params.internal_p params.dim)
      params.wasserstein_power)
  else if tolerate_invalid_idx then .ok 0
  else .error .invalidIdx

/-- The accumulation loop of `getDistanceToQthPowerInternal`: sums
`get_item_bidder_cost(bidders_to_items[bIdx], bIdx)` over the given bidder
indices. -/
def costSum (E : AuctionEnv σ) (params : AuctionParams) (s : RunnerState σ) :
    List ℕ → ℚ → Except AuctionError ℚ
  | [], acc => .ok acc
  | bIdx :: rest, acc =>
    match get_item_bidder_cost E params (s.bidders_to_items.getD bIdx none) (some bIdx) false with
    | .error e => .error e
    | .ok c => costSum E params s rest (acc + c)

/-- `getDistanceToQthPowerInternal()`: recomputes the total transport cost
of the current assignment and stores it in `result.cost`. -/
def getDistanceToQthPowerInternal (E : AuctionEnv σ) (params : AuctionParams) (N : ℕ)
    (s : RunnerState σ) : Except AuctionError (RunnerState σ) :=
  match costSum E params s (List.range N) 0 with
  | .error e => .error e
  | .ok r => .ok { s with result := { s.result with cost := r } }

/-- The epsilon decrease performed at the end of a non-converged phase:
`oracle.set_epsilon(oracle.get_epsilon() / epsilon_common_ratio)` followed
by `result.final_epsilon = oracle.get_epsilon()`. -/
def next_epsilon (params : AuctionParams) (s : RunnerState σ) : RunnerState σ :=
  let e := s.oracle_epsilon / params.epsilon_common_ratio
  { s with oracle_epsilon := e, result := { s.result with final_epsilon := e } }

/-- The phase loop of `run_auction_phases`, indexed by the number of
remaining phases (`max_num_phases - phase_num`).  One iteration: flush the
assignment, run one auction phase, recompute the cost, and either break
(converged) or decrease epsilon and continue. -/
def phase_iters (E : AuctionEnv σ) (params : AuctionParams) (N fuel : ℕ) :
    ℕ → RunnerState σ → Except AuctionError (RunnerState σ)
  | 0, s => .ok s
  | remaining + 1, s =>
    match run_auction_phase E fuel (flush_assignment E N s) with
    | .error e => .error e
    | .ok s2 =>
      match getDistanceToQthPowerInternal E params N s2 with
      | .error e => .error e
      | .ok s3 =>
        let current_result := s3.result.cost
        let denominator := current_result - (N : ℚ) * s3.oracle_epsilon
        let current_root := E.powr current_result (1 / params.wasserstein_power)
        if 0 < denominator then
          let denom_root := E.powr denominator (1 / params.wasserstein_power)
          let numerator := current_root - denom_root
          let s4 := { s3 with result :=
            { s3.result with final_relative_error := numerator / denom_root } }
          if s4.result.final_relative_error ≤ params.delta then .ok s4
          else phase_iters E params N fuel remaining (next_epsilon params s4)
        else phase_iters E params N fuel remaining (next_epsilon params s3)

/-- The opening statements of `run_auction_phases`: initialize
`final_relative_error` to `std::numeric_limits<Real>::max()`, set the
oracle epsilon to `initial_epsilon`, record `start_epsilon` and
`final_epsilon`. -/
def init_phase_state (E : AuctionEnv σ) (params : AuctionParams) (s : RunnerState σ) :
    RunnerState σ :=
  let s := { s with result := { s.result with final_relative_error := E.real_max } }
  let s := { s with oracle_epsilon := params.initial_epsilon }
  { s with result :=
    { s.result with start_epsilon := s.oracle_epsilon, final_epsilon := s.oracle_epsilon } }

/-- `run_auction_phases()`: the initialization above, then the phase loop,
and finally a copy of the oracle prices into the result. -/
def run_auction_phases (E : AuctionEnv σ) (params : AuctionParams) (N fuel : ℕ)
    (s : RunnerState σ) : Except AuctionError (RunnerState σ) :=
  match phase_iters E params N fuel params.max_num_phases (init_phase_state E params s) with
  | .error e => .error e
  | .ok s1 => .ok { s1 with result := { s1.result with prices := E.ops.get_prices s1.oracle } }

/-- Modelled from the spec: the `DEBUG_AUCTION` macro is defined (or not)
in `def_debug_ws.h`, which is not part of the sources.  The convergence
failure of section 7 of the spec (a run that exhausts the phase cap with
`tolerate_max_iter_exceeded` false fails with a did-not-converge error) is
the guarded code's behavior, so the macro is taken as enabled. -/
def DEBUG_AUCTION : Bool := true

/-- Modelled from the spec: `result.compute_distance(wasserstein_power)`
is declared outside the sources; the spec defines the distance as
`cost^(1/q)`. -/
def compute_distance (E : AuctionEnv σ) (q : ℚ) (r : AuctionResult) : AuctionResult :=
  { r with distance := E.powr r.cost (1 / q) }

/-- Modelled from the spec: `get_bidder_id` and `get_bidders_item_id` are
declared outside the sources; the spec says matching extraction translates
internal bidder and item indices to caller-facing ids. -/
def extract_matching (E : AuctionEnv σ) (N : ℕ) (s : RunnerState σ) : List (ℤ × ℤ) :=
  (List.range N).map (fun bidder_idx =>
    (E.get_bidder_id bidder_idx, E.get_item_id (s.bidders_to_items.getD bidder_idx none)))

/-- The main branch of `run_auction`: the `num_bidders == 1` bypass or
the phase loop followed by the `DEBUG_AUCTION`-guarded convergence
check. -/
def run_auction_main (E : AuctionEnv σ) (params : AuctionParams) (N fuel : ℕ)
    (s : RunnerState σ) : Except AuctionError (RunnerState σ) :=
  if N = 1 then
    let s1 := assign_item_to_bidder s 0 0
    match get_item_bidder_cost E params (some 0) (some 0) false with
    | .error e => .error e
    | .ok c => .ok { s1 with result := { s1.result with cost := c } }
  else
    match run_auction_phases E params N fuel s with
    | .error e => .error e
    | .ok s1 =>
      if DEBUG_AUCTION ∧ params.delta < s1.result.final_relative_error ∧
          params.tolerate_max_iter_exceeded = false then
        .error .maxIterExceeded
      else .ok s1

/-- `run_auction()`: the main branch above, then `result.compute_distance`,
the `is_distance_computed` flag, and optional matching extraction. -/
def run_auction (E : AuctionEnv σ) (params : AuctionParams) (N fuel : ℕ)
    (s : RunnerState σ) : Except AuctionError (RunnerState σ) :=
  match run_auction_main E params N fuel s with
  | .error e => .error e
  | .ok s1 =>
    let s2 := { s1 with
      result := compute_distance E params.wasserstein_power s1.result
      is_distance_computed := true }
    if params.return_matching then
      .ok { s2 with result := { s2.result with matching := extract_matching E N s2 } }
    else .ok s2

/-! ### Generic list helpers for the sentinel-valued index vectors -/

section ListHelpers

variable {α β : Type}

theorem getD_set_self (l : List α) (i : ℕ) (a d : α) (h : i < l.length) :
    (l.set i a).getD i d = a := by
  simp [List.getD_eq_getElem?_getD, List.getElem?_set_self, h]

theorem getD_set_neq (l : List α) (i j : ℕ) (a d : α) (h : i ≠ j) :
    (l.set i a).getD j d = l.getD j d := by
  simp [List.getD_eq_getElem?_getD, List.getElem?_set_ne, h]

theorem getD_map_none (l : List α) (i : ℕ) :
    (l.map (fun _ => (none : Option β))).getD i none = none := by
  simp [List.getD_eq_getElem?_getD, List.getElem?_map]

theorem getD_oob (l : List (Option β)) (i : ℕ) (h : l.length ≤ i) :
    l.getD i none = none := by
  simp [List.getD_eq_getElem?_getD, List.getElem?_eq_none h]

theorem lt_length_of_getD_some (l : List (Option β)) (i : ℕ) (b : β)
    (h : l.getD i none = some b) : i < l.length := by
  by_contra hc
  rw [getD_oob l i (Nat.le_of_not_lt hc)] at h
  exact Option.noConfusion h

theorem getLastD_concat (l : List α) (a d : α) : (l ++ [a]).getLastD d = a := by
  simp [List.getLastD_eq_getLast?, List.getLast?_concat]

end ListHelpers

/-! ### Concrete instantiations used as witnesses

`testOps` is a trivial oracle over a price list: bidder `b` always bids
item `b % 2` at value `0`.  `withLogOps` wraps an arbitrary oracle so that
every `adjust_prices` call (made exactly once at the start of each phase)
records the epsilon in force for that phase; the log is thus the sequence
of epsilon values used across phases. -/

def testOps : OracleOps (List ℚ) :=
  { get_optimal_bid := fun _ _ bidder_idx => (bidder_idx % 2, 0)
    set_price := fun _ st item_idx v => st.set item_idx v
    adjust_prices := fun _ st => st
    get_prices := fun st => st
    set_prices := fun _ ps => ps
    max_val := fun _ => 8 }

def testEnv (d : ℕ → ℕ → ℚ) : AuctionEnv (List ℚ) :=
  { ops := testOps
    powr := fun x _ => x
    dist_lp := fun b i _ _ => d b i
    real_max := 100
    get_bidder_id := fun b => (b : ℤ)
    get_item_id := fun i => match i with | some j => (j : ℤ) | none => -1 }

def withLogOps (ops : OracleOps σ) : OracleOps (σ × List ℚ) :=
  { get_optimal_bid := fun e st b => ops.get_optimal_bid e st.1 b
    set_price := fun e st i v => (ops.set_price e st.1 i v, st.2)
    adjust_prices := fun e st => (ops.adjust_prices e st.1, st.2 ++ [e])
    get_prices := fun st => ops.get_prices st.1
    set_prices := fun st ps => (ops.set_prices st.1 ps, st.2)
    max_val := fun st => ops.max_val st.1 }

def withLogEnv (E : AuctionEnv σ) : AuctionEnv (σ × List ℚ) :=
  { ops := withLogOps E.ops
    powr := E.powr
    dist_lp := E.dist_lp
    real_max := E.real_max
    get_bidder_id := E.get_bidder_id
    get_item_id := E.get_item_id }

instance {e a : Type} [DecidableEq e] [DecidableEq a] : DecidableEq (Except e a) := fun x y =>
  match x, y with
  | .ok u, .ok v =>
    if h : u = v then isTrue (by rw [h]) else isFalse (by intro hc; cases hc; exact h rfl)
  | .ok _, .error _ => isFalse (fun hc => Except.noConfusion hc)
  | .error _, .ok _ => isFalse (fun hc => Except.noConfusion hc)
  | .error u, .error v =>
    if h : u = v then isTrue (by rw [h]) else isFalse (by intro hc; cases hc; exact h rfl)

/-- Extract the state of a successful run, with a fallback. -/
def okOr (d : RunnerState σ) : Except AuctionError (RunnerState σ) → RunnerState σ
  | .ok s => s
  | .error _ => d

/-- Baseline parameter record for the concrete witnesses. -/
def testParams : AuctionParams :=
  { wasserstein_power := 1, delta := 1/100, internal_p := 2, dim := 2
    initial_epsilon := 1, epsilon_common_ratio := 5, max_num_phases := 2
    tolerate_max_iter_exceeded := false, return_matching := false }

/-! ### Shape lemmas for `assign_item_to_bidder` -/

theorem assign_eq_of_none (s : RunnerState σ) (item_idx bidder_idx : ℕ)
    (h : s.items_to_bidders.getD item_idx none = none) :
    assign_item_to_bidder s item_idx bidder_idx = { s with
      bidders_to_items := s.bidders_to_items.set bidder_idx (some item_idx)
      items_to_bidders := s.items_to_bidders.set item_idx (some bidder_idx)
      unassigned_bidders := s.unassigned_bidders.erase bidder_idx
      result := { s.result with num_rounds := s.result.num_rounds + 1 } } := by
  simp only [assign_item_to_bidder, h]

theorem assign_eq_of_some (s : RunnerState σ) (item_idx bidder_idx old : ℕ)
    (h : s.items_to_bidders.getD item_idx none = some old) :
    assign_item_to_bidder s item_idx bidder_idx = { s with
      bidders_to_items := (s.bidders_to_items.set bidder_idx (some item_idx)).set old none
      items_to_bidders := s.items_to_bidders.set item_idx (some bidder_idx)
      unassigned_bidders := insert old (s.unassigned_bidders.erase bidder_idx)
      result := { s.result with num_rounds := s.result.num_rounds + 1 } } := by
  simp only [assign_item_to_bidder, h]

/-- C6: `assign(item, bidder)` for an unassigned bidder: the new mutual
entries are written, the bidder leaves the unassigned set, a previous
owner (if any) is evicted into the unassigned set with its entry cleared,
the round counter grows by exactly one, and nothing else changes.  The
consistency hypothesis `hcons` is the ledger invariant guaranteed between
public operations (checked by `sanity_check`). -/
theorem c6_assign_item_to_bidder (s : RunnerState σ) (item_idx bidder_idx : ℕ)
    (hb_len : bidder_idx < s.bidders_to_items.length)
    (hi_len : item_idx < s.items_to_bidders.length)
    (hunassigned : s.bidders_to_items.getD bidder_idx none = none)
    (hcons : ∀ b, s.items_to_bidders.getD item_idx none = some b →
      s.bidders_to_items.getD b none = some item_idx) :
    (assign_item_to_bidder s item_idx bidder_idx).bidders_to_items.getD bidder_idx none
        = some item_idx ∧
    (assign_item_to_bidder s item_idx bidder_idx).items_to_bidders.getD item_idx none
        = some bidder_idx ∧
    bidder_idx ∉ (assign_item_to_bidder s item_idx bidder_idx).unassigned_bidders ∧
    (assign_item_to_bidder s item_idx bidder_idx).result
        = { s.result with num_rounds := s.result.num_rounds + 1 } ∧
    (∀ old, s.items_to_bidders.getD item_idx none = some old →
      (assign_item_to_bidder s item_idx bidder_idx).bidders_to_items.getD old none = none ∧
      old ∈ (assign_item_to_bidder s item_idx bidder_idx).unassigned_bidders) ∧
    (∀ b, b ≠ bidder_idx → s.items_to_bidders.getD item_idx none ≠ some b →
      (assign_item_to_bidder s item_idx bidder_idx).bidders_to_items.getD b none
        = s.bidders_to_items.getD b none) ∧
    (∀ i, i ≠ item_idx →
      (assign_item_to_bidder s item_idx bidder_idx).items_to_bidders.getD i none
        = s.items_to_bidders.getD i none) ∧
    (∀ b, b ≠ bidder_idx → s.items_to_bidders.getD item_idx none ≠ some b →
      (b ∈ (assign_item_to_bidder s item_idx bidder_idx).unassigned_bidders ↔
        b ∈ s.unassigned_bidders)) ∧
    (assign_item_to_bidder s item_idx bidder_idx).oracle = s.oracle ∧
    (assign_item_to_bidder s item_idx bidder_idx).oracle_epsilon = s.oracle_epsilon := by
  cases hold : s.items_to_bidders.getD item_idx none with
  | none =>
    rw [assign_eq_of_none s item_idx bidder_idx hold]
    refine ⟨?_, ?_, ?_, rfl, ?_, ?_, ?_, ?_, rfl, rfl⟩
    · exact getD_set_self _ _ _ _ hb_len
    · exact getD_set_self _ _ _ _ hi_len
    · simp [Finset.mem_erase]
    · intro old h; exact Option.noConfusion h
    · intro b hb _; exact getD_set_neq _ _ _ _ _ (fun h => hb h.symm)
    · intro i hi; exact getD_set_neq _ _ _ _ _ (fun h => hi h.symm)
    · intro b hb _; simp [Finset.mem_erase, hb]
  | some old =>
    have hold' := hcons old hold
    have hne : old ≠ bidder_idx := by
      intro h; rw [h, hunassigned] at hold'; exact Option.noConfusion hold'
    rw [assign_eq_of_some s item_idx bidder_idx old hold]
    refine ⟨?_, ?_, ?_, rfl, ?_, ?_, ?_, ?_, rfl, rfl⟩
    · rw [getD_set_neq _ _ _ _ _ hne]; exact getD_set_self _ _ _ _ hb_len
    · exact getD_set_self _ _ _ _ hi_len
    · simp only [Finset.mem_insert, Finset.mem_erase]
      intro hc
      rcases hc with hc | hc
      · exact hne hc.symm
      · exact hc.1 rfl
    · intro old2 h2
      have : old2 = old := (Option.some_inj.mp h2).symm
      subst this
      constructor
      · exact getD_set_self _ _ _ _ (by simpa using lt_length_of_getD_some _ _ _ hold')
      · simp [Finset.mem_insert]
    · intro b hb hbo
      have hbo' : b ≠ old := by intro h; subst h; exact hbo rfl
      rw [getD_set_neq _ _ _ _ _ (fun h => hbo' h.symm),
        getD_set_neq _ _ _ _ _ (fun h => hb h.symm)]
    · intro i hi; exact getD_set_neq _ _ _ _ _ (fun h => hi h.symm)
    · intro b hb hbo
      have hbo' : b ≠ old := by intro h; subst h; exact hbo rfl
      simp [Finset.mem_insert, Finset.mem_erase, hb, hbo']

/-- Witness for C6 at a concrete ledger where item 0 is held by bidder 1. -/
def c6state : RunnerState (List ℚ) :=
  { bidders_to_items := [none, some 0]
    items_to_bidders := [some 1, none]
    unassigned_bidders := {0}
    oracle_epsilon := 0
    oracle := []
    result := AuctionResult.initial
    is_distance_computed := false }

theorem c6_assign_item_to_bidder_witness :
    (assign_item_to_bidder c6state 0 0).bidders_to_items.getD 0 none = some 0 ∧
    (assign_item_to_bidder c6state 0 0).items_to_bidders.getD 0 none = some 0 ∧
    0 ∉ (assign_item_to_bidder c6state 0 0).unassigned_bidders ∧
    (assign_item_to_bidder c6state 0 0).result
      = { c6state.result with num_rounds := c6state.result.num_rounds + 1 } ∧
    (∀ old, c6state.items_to_bidders.getD 0 none = some old →
      (assign_item_to_bidder c6state 0 0).bidders_to_items.getD old none = none ∧
      old ∈ (assign_item_to_bidder c6state 0 0).unassigned_bidders) ∧
    (∀ b, b ≠ 0 → c6state.items_to_bidders.getD 0 none ≠ some b →
      (assign_item_to_bidder c6state 0 0).bidders_to_items.getD b none
        = c6state.bidders_to_items.getD b none) ∧
    (∀ i, i ≠ 0 →
      (assign_item_to_bidder c6state 0 0).items_to_bidders.getD i none
        = c6state.items_to_bidders.getD i none) ∧
    (∀ b, b ≠ 0 → c6state.items_to_bidders.getD 0 none ≠ some b →
      (b ∈ (assign_item_to_bidder c6state 0 0).unassigned_bidders ↔
        b ∈ c6state.unassigned_bidders)) ∧
    (assign_item_to_bidder c6state 0 0).oracle = c6state.oracle ∧
    (assign_item_to_bidder c6state 0 0).oracle_epsilon = c6state.oracle_epsilon :=
  c6_assign_item_to_bidder c6state 0 0 (by decide) (by decide) (by decide)
    (by
      intro b h
      rw [show c6state.items_to_bidders.getD 0 none = some 1 from rfl] at h
      cases h
      decide)

/-! ### C2: the constructor default for `initial_epsilon` -/

/-- C2 counterexample: the constructor only replaces `initial_epsilon`
when it is exactly zero.  A configured value of `-1` (non-positive) is
kept unchanged: it is neither `max_val_ / 4` (which is `2` for this
oracle) nor positive, refuting the claim at this input. -/
theorem c2_counterexample :
    (AuctionRunnerGS_mk (testEnv (fun _ _ => 0))
        { testParams with initial_epsilon := -1 } 2 [] [0, 0]).1.initial_epsilon = -1 ∧
    (AuctionRunnerGS_mk (testEnv (fun _ _ => 0))
        { testParams with initial_epsilon := -1 } 2 [] [0, 0]).1.initial_epsilon ≠
      (testEnv (fun _ _ => 0)).ops.max_val
        (AuctionRunnerGS_mk (testEnv (fun _ _ => 0))
          { testParams with initial_epsilon := -1 } 2 [] [0, 0]).2.oracle / 4 ∧
    ¬ 0 < (AuctionRunnerGS_mk (testEnv (fun _ _ => 0))
        { testParams with initial_epsilon := -1 } 2 [] [0, 0]).1.initial_epsilon := by
  refine ⟨rfl, ?_, ?_⟩
  · show (-1 : ℚ) ≠ 8 / 4
    norm_num
  · show ¬ (0 : ℚ) < -1
    norm_num

/-- C2 amended: the constructor replaces `initial_epsilon` exactly when
the configured value is zero, substituting one quarter of the oracle's
maximum pairwise ground distance (`max_val_ / 4`), which is positive
whenever that maximum is; any nonzero configured value, including negative
ones, is kept unchanged. -/
theorem c2_initial_epsilon_default (E : AuctionEnv σ) (params : AuctionParams)
    (N : ℕ) (prices : List ℚ) (st0 : σ) :
    (params.initial_epsilon = 0 →
      (AuctionRunnerGS_mk E params N prices st0).1.initial_epsilon =
        E.ops.max_val (AuctionRunnerGS_mk E params N prices st0).2.oracle / 4 ∧
      (0 < E.ops.max_val (AuctionRunnerGS_mk E params N prices st0).2.oracle →
        0 < (AuctionRunnerGS_mk E params N prices st0).1.initial_epsilon)) ∧
    (params.initial_epsilon ≠ 0 →
      (AuctionRunnerGS_mk E params N prices st0).1.initial_epsilon =
        params.initial_epsilon) := by
  constructor
  · intro h0
    have heq : (AuctionRunnerGS_mk E params N prices st0).1.initial_epsilon =
        E.ops.max_val (AuctionRunnerGS_mk E params N prices st0).2.oracle / 4 := by
      simp only [AuctionRunnerGS_mk, fixup_params]
      by_cases hr : params.epsilon_common_ratio = 0
      · simp [hr, h0]
      · simp [hr, h0]
    exact ⟨heq, fun hm => by rw [heq]; positivity⟩
  · intro h0
    simp only [AuctionRunnerGS_mk, fixup_params]
    by_cases hr : params.epsilon_common_ratio = 0
    · simp [hr, h0]
    · simp [hr, h0]

theorem c2_initial_epsilon_default_witness :
    ((testParams.initial_epsilon = 0 →
      (AuctionRunnerGS_mk (testEnv (fun _ _ => 0)) testParams 2 [] [0, 0]).1.initial_epsilon =
        (testEnv (fun _ _ => 0)).ops.max_val
          (AuctionRunnerGS_mk (testEnv (fun _ _ => 0)) testParams 2 [] [0, 0]).2.oracle / 4 ∧
      (0 < (testEnv (fun _ _ => 0)).ops.max_val
          (AuctionRunnerGS_mk (testEnv (fun _ _ => 0)) testParams 2 [] [0, 0]).2.oracle →
        0 < (AuctionRunnerGS_mk (testEnv (fun _ _ => 0)) testParams 2 [] [0, 0]).1.initial_epsilon)) ∧
    (testParams.initial_epsilon ≠ 0 →
      (AuctionRunnerGS_mk (testEnv (fun _ _ => 0)) testParams 2 [] [0, 0]).1.initial_epsilon =
        testParams.initial_epsilon)) ∧
    testParams.initial_epsilon ≠ 0 :=
  ⟨c2_initial_epsilon_default (testEnv (fun _ _ => 0)) testParams 2 [] [0, 0], by decide⟩

/-! ### C9: `get_item_bidder_cost` -/

/-- C9: when either index is the invalid sentinel, `get_item_bidder_cost`
throws unless the tolerate flag is set, in which case it returns zero
cost; with two valid indices it returns
`dist_lp(bidder, item, internal_p, dim)^wasserstein_power` and never
throws. -/
theorem c9_get_item_bidder_cost (E : AuctionEnv σ) (params : AuctionParams)
    (item_idx bidder_idx : Option ℕ) (tol : Bool) :
    (∀ i b, item_idx = some i → bidder_idx = some b →
      get_item_bidder_cost E params item_idx bidder_idx tol =
        .ok (E.powr (E.dist_lp b i params.internal_p params.dim) params.wasserstein_power)) ∧
    ((item_idx = none ∨ bidder_idx = none) →
      (tol = true → get_item_bidder_cost E params item_idx bidder_idx tol = .ok 0) ∧
      (tol = false →
        get_item_bidder_cost E params item_idx bidder_idx tol = .error .invalidIdx)) := by
  constructor
  · intro i b hi hb
    subst hi; subst hb
    simp [get_item_bidder_cost]
  · intro hinv
    cases tol <;>
      refine ⟨fun ht => ?_, fun ht => ?_⟩ <;>
      first
        | exact Bool.noConfusion ht
        | rcases hinv with h | h <;> subst h <;> simp [get_item_bidder_cost]

theorem c9_get_item_bidder_cost_witness :
    get_item_bidder_cost (testEnv (fun b i => b + 2 * i)) testParams (some 1) (some 0) false =
      .ok ((testEnv (fun b i => b + 2 * i)).powr
        ((testEnv (fun b i => b + 2 * i)).dist_lp 0 1 testParams.internal_p testParams.dim)
        testParams.wasserstein_power) ∧
    get_item_bidder_cost (testEnv (fun b i => b + 2 * i)) testParams none (some 0) true = .ok 0 ∧
    get_item_bidder_cost (testEnv (fun b i => b + 2 * i)) testParams none (some 0) false =
      .error .invalidIdx :=
  ⟨(c9_get_item_bidder_cost (testEnv (fun b i => b + 2 * i)) testParams
      (some 1) (some 0) false).1 1 0 rfl rfl,
    ((c9_get_item_bidder_cost (testEnv (fun b i => b + 2 * i)) testParams
      none (some 0) true).2 (Or.inl rfl)).1 rfl,
    ((c9_get_item_bidder_cost (testEnv (fun b i => b + 2 * i)) testParams
      none (some 0) false).2 (Or.inl rfl)).2 rfl⟩

/-! ### C7: the single-point bypass -/

/-- C7: for `N = 1`, `run_auction` skips the phase loop entirely: bidder 0
is assigned item 0 directly, the cost is the single pairwise distance
raised to the `wasserstein_power`, and `num_phases` stays 0. -/
theorem c7_single_point (E : AuctionEnv σ) (params : AuctionParams) (prices : List ℚ)
    (st0 : σ) (fuel : ℕ) :
    (run_auction E (AuctionRunnerGS_mk E params 1 prices st0).1 1 fuel
        (AuctionRunnerGS_mk E params 1 prices st0).2).map
      (fun s => (s.result.cost, s.result.num_phases, s.bidders_to_items)) =
    .ok (E.powr
        (E.dist_lp 0 0 (AuctionRunnerGS_mk E params 1 prices st0).1.internal_p
          (AuctionRunnerGS_mk E params 1 prices st0).1.dim)
        (AuctionRunnerGS_mk E params 1 prices st0).1.wasserstein_power,
      0, [some 0]) := by
  cases hm : (AuctionRunnerGS_mk E params 1 prices st0).1.return_matching <;>
    simp [run_auction, run_auction_main, AuctionRunnerGS_mk, initial_state,
      assign_item_to_bidder, get_item_bidder_cost, compute_distance, extract_matching,
      AuctionResult.initial, hm, Except.map] <;>
    simp [AuctionRunnerGS_mk, initial_state] at hm <;>
    simp [hm]

/-! ### C5: the bijection invariant of the phase engine -/

/-- The ledger invariant maintained by the phase engine: both vectors have
length `N`, valid entries are mutually inverse and in range, and the
unassigned set is exactly the set of bidders below `N` with a sentinel
entry. -/
def LedgerInv (N : ℕ) (s : RunnerState σ) : Prop :=
  s.bidders_to_items.length = N ∧
  s.items_to_bidders.length = N ∧
  (∀ b i, s.bidders_to_items.getD b none = some i →
    i < N ∧ s.items_to_bidders.getD i none = some b) ∧
  (∀ i b, s.items_to_bidders.getD i none = some b →
    b < N ∧ s.bidders_to_items.getD b none = some i) ∧
  (∀ b, b ∈ s.unassigned_bidders ↔ b < N ∧ s.bidders_to_items.getD b none = none)

/-- The range contract of the external oracle: every optimal bid names an
item index below `N`. -/
def OracleBidsInRange (E : AuctionEnv σ) (N : ℕ) : Prop :=
  ∀ e st b, (E.ops.get_optimal_bid e st b).1 < N

theorem assign_LedgerInv {N : ℕ} (s : RunnerState σ) (item_idx bidder_idx : ℕ)
    (hinv : LedgerInv N s) (hb : bidder_idx ∈ s.unassigned_bidders) (hi : item_idx < N) :
    LedgerInv N (assign_item_to_bidder s item_idx bidder_idx) := by
  obtain ⟨hlen1, hlen2, inv3, inv4, inv5⟩ := hinv
  obtain ⟨hbN, hbnone⟩ := (inv5 bidder_idx).mp hb
  cases hold : s.items_to_bidders.getD item_idx none with
  | none =>
    rw [assign_eq_of_none s item_idx bidder_idx hold]
    refine ⟨by simpa using hlen1, by simpa using hlen2, ?_, ?_, ?_⟩
    · intro b i hbi
      by_cases hcase : b = bidder_idx
      · subst hcase
        rw [getD_set_self _ _ _ _ (hlen1 ▸ hbN)] at hbi
        cases hbi
        exact ⟨hi, getD_set_self _ _ _ _ (hlen2 ▸ hi)⟩
      · rw [getD_set_neq _ _ _ _ _ (fun h => hcase h.symm)] at hbi
        obtain ⟨hiN, hib⟩ := inv3 b i hbi
        have hii : i ≠ item_idx := by
          intro h; rw [h, hold] at hib; exact Option.noConfusion hib
        exact ⟨hiN, by rw [getD_set_neq _ _ _ _ _ (fun h => hii h.symm)]; exact hib⟩
    · intro i b hib
      by_cases hcase : i = item_idx
      · subst hcase
        rw [getD_set_self _ _ _ _ (hlen2 ▸ hi)] at hib
        cases hib
        exact ⟨hbN, getD_set_self _ _ _ _ (hlen1 ▸ hbN)⟩
      · rw [getD_set_neq _ _ _ _ _ (fun h => hcase h.symm)] at hib
        obtain ⟨hbN2, hbi⟩ := inv4 i b hib
        have hbb : b ≠ bidder_idx := by
          intro h; rw [h, hbnone] at hbi; exact Option.noConfusion hbi
        exact ⟨hbN2, by rw [getD_set_neq _ _ _ _ _ (fun h => hbb h.symm)]; exact hbi⟩
    · intro b
      by_cases hcase : b = bidder_idx
      · subst hcase
        simp only [Finset.mem_erase, ne_eq, not_true_eq_false, false_and, false_iff, not_and]
        intro _
        rw [getD_set_self _ _ _ _ (hlen1 ▸ hbN)]
        exact fun h => Option.noConfusion h
      · rw [Finset.mem_erase]
        rw [getD_set_neq _ _ _ _ _ (fun h => hcase h.symm)]
        constructor
        · intro h2; exact (inv5 b).mp h2.2
        · intro h2; exact ⟨hcase, (inv5 b).mpr h2⟩
  | some old =>
    obtain ⟨holdN, holdb⟩ := inv4 item_idx old hold
    have hne : old ≠ bidder_idx := by
      intro h; rw [h, hbnone] at holdb; exact Option.noConfusion holdb
    have holdlen : old < (s.bidders_to_items.set bidder_idx (some item_idx)).length := by
      simpa [hlen1] using holdN
    rw [assign_eq_of_some s item_idx bidder_idx old hold]
    refine ⟨by simpa using hlen1, by simpa using hlen2, ?_, ?_, ?_⟩
    · intro b i hbi
      by_cases hcase : b = old
      · subst hcase
        rw [getD_set_self _ _ _ _ holdlen] at hbi
        exact Option.noConfusion hbi
      · rw [getD_set_neq _ _ _ _ _ (fun h => hcase h.symm)] at hbi
        by_cases hcase2 : b = bidder_idx
        · subst hcase2
          rw [getD_set_self _ _ _ _ (hlen1 ▸ hbN)] at hbi
          cases hbi
          exact ⟨hi, getD_set_self _ _ _ _ (hlen2 ▸ hi)⟩
        · rw [getD_set_neq _ _ _ _ _ (fun h => hcase2 h.symm)] at hbi
          obtain ⟨hiN, hib⟩ := inv3 b i hbi
          have hii : i ≠ item_idx := by
            intro h
            rw [h, hold] at hib
            cases hib
            exact hcase rfl
          exact ⟨hiN, by rw [getD_set_neq _ _ _ _ _ (fun h => hii h.symm)]; exact hib⟩
    · intro i b hib
      by_cases hcase : i = item_idx
      · subst hcase
        rw [getD_set_self _ _ _ _ (hlen2 ▸ hi)] at hib
        cases hib
        refine ⟨hbN, ?_⟩
        rw [getD_set_neq _ _ _ _ _ hne]
        exact getD_set_self _ _ _ _ (hlen1 ▸ hbN)
      · rw [getD_set_neq _ _ _ _ _ (fun h => hcase h.symm)] at hib
        obtain ⟨hbN2, hbi⟩ := inv4 i b hib
        have hbb : b ≠ bidder_idx := by
          intro h; rw [h, hbnone] at hbi; exact Option.noConfusion hbi
        have hbo : b ≠ old := by
          intro h
          rw [h, holdb] at hbi
          cases hbi
          exact hcase rfl
        refine ⟨hbN2, ?_⟩
        rw [getD_set_neq _ _ _ _ _ (fun h => hbo h.symm),
          getD_set_neq _ _ _ _ _ (fun h => hbb h.symm)]
        exact hbi
    · intro b
      by_cases hcase : b = old
      · subst hcase
        simp only [Finset.mem_insert, true_or, true_iff]
        exact ⟨holdN, getD_set_self _ _ _ _ holdlen⟩
      · by_cases hcase2 : b = bidder_idx
        · subst hcase2
          refine iff_of_false ?_ ?_
          · rw [Finset.mem_insert, Finset.mem_erase]
            rintro (h | h)
            · exact hcase h
            · exact h.1 rfl
          · rintro ⟨_, hc⟩
            rw [getD_set_neq _ _ _ _ _ hne, getD_set_self _ _ _ _ (hlen1 ▸ hbN)] at hc
            exact Option.noConfusion hc
        · simp only [Finset.mem_insert, Finset.mem_erase, hcase, false_or]
          rw [getD_set_neq _ _ _ _ _ (fun h => hcase h.symm),
            getD_set_neq _ _ _ _ _ (fun h => hcase2 h.symm)]
          constructor
          · intro h2; exact (inv5 b).mp h2.2
          · intro h2; exact ⟨hcase2, (inv5 b).mpr h2⟩

theorem flush_LedgerInv (E : AuctionEnv σ) (N : ℕ) (s : RunnerState σ)
    (hlen1 : s.bidders_to_items.length = N) (hlen2 : s.items_to_bidders.length = N) :
    LedgerInv N (flush_assignment E N s) := by
  refine ⟨by simpa [flush_assignment] using hlen1, by simpa [flush_assignment] using hlen2,
    ?_, ?_, ?_⟩
  · intro b i hbi
    rw [show (flush_assignment E N s).bidders_to_items = s.bidders_to_items.map (fun _ => none)
      from rfl, getD_map_none] at hbi
    exact Option.noConfusion hbi
  · intro i b hib
    rw [show (flush_assignment E N s).items_to_bidders = s.items_to_bidders.map (fun _ => none)
      from rfl, getD_map_none] at hib
    exact Option.noConfusion hib
  · intro b
    simp [flush_assignment, Finset.mem_range, getD_map_none]

/-- The ledger invariant ignores the oracle state, so updating the oracle
preserves it. -/
theorem LedgerInv_oracle_update {N : ℕ} (s : RunnerState σ) (o : σ)
    (h : LedgerInv N s) : LedgerInv N { s with oracle := o } := h

theorem phase_loop_LedgerInv (E : AuctionEnv σ) {N : ℕ} (hE : OracleBidsInRange E N) :
    ∀ (fuel : ℕ) (s s' : RunnerState σ), phase_loop E fuel s = .ok s' → LedgerInv N s →
      LedgerInv N s' ∧ s'.unassigned_bidders = ∅ := by
  intro fuel
  induction fuel with
  | zero =>
    intro s s' h
    exact absurd h (by simp [phase_loop])
  | succ fuel ih =>
    intro s s' h hinv
    simp only [phase_loop] at h
    split at h
    case isTrue hne =>
      split at h
      case isTrue hempty =>
        cases h
        refine ⟨?_, hempty⟩
        exact LedgerInv_oracle_update _ _
          (assign_LedgerInv s _ _ hinv (s.unassigned_bidders.min'_mem hne) (hE _ _ _))
      case isFalse hempty =>
        exact ih _ _ h (LedgerInv_oracle_update _ _
          (assign_LedgerInv s _ _ hinv (s.unassigned_bidders.min'_mem hne) (hE _ _ _)))
    case isFalse hne =>
      exact Except.noConfusion h

/-- From the invariant and an empty unassigned set, the assignment is a
perfect matching. -/
theorem perfect_matching_of_LedgerInv {N : ℕ} (s : RunnerState σ)
    (hinv : LedgerInv N s) (hemp : s.unassigned_bidders = ∅) :
    (∀ b, b < N → ∃ i, i < N ∧ s.bidders_to_items.getD b none = some i ∧
      s.items_to_bidders.getD i none = some b) ∧
    (∀ v, v < N → ∃! b, b < N ∧ s.bidders_to_items.getD b none = some v) := by
  obtain ⟨hlen1, hlen2, inv3, inv4, inv5⟩ := hinv
  have htotal : ∀ b, b < N → ∃ i, i < N ∧ s.bidders_to_items.getD b none = some i ∧
      s.items_to_bidders.getD i none = some b := by
    intro b hbN
    cases hbi : s.bidders_to_items.getD b none with
    | none =>
      have : b ∈ s.unassigned_bidders := (inv5 b).mpr ⟨hbN, hbi⟩
      rw [hemp] at this
      exact absurd this (Finset.not_mem_empty b)
    | some i =>
      obtain ⟨hiN, hib⟩ := inv3 b i hbi
      exact ⟨i, hiN, rfl, hib⟩
  refine ⟨htotal, ?_⟩
  have hinjOn : Set.InjOn (fun b => s.bidders_to_items.getD b none) ↑(Finset.range N) := by
    intro b1 hb1 b2 hb2 heq
    simp only [Finset.coe_range, Set.mem_Iio] at hb1 hb2
    obtain ⟨i1, _, hbi1, hib1⟩ := htotal b1 hb1
    obtain ⟨i2, _, hbi2, hib2⟩ := htotal b2 hb2
    simp only at heq
    rw [hbi1, hbi2] at heq
    cases heq
    rw [hib1] at hib2
    exact Option.some_inj.mp hib2
  have himg : (Finset.range N).image (fun b => s.bidders_to_items.getD b none) =
      (Finset.range N).image some := by
    apply Finset.eq_of_subset_of_card_le
    · intro x hx
      rw [Finset.mem_image] at hx ⊢
      obtain ⟨b, hbmem, hbx⟩ := hx
      rw [Finset.mem_range] at hbmem
      obtain ⟨i, hiN, hbi, _⟩ := htotal b hbmem
      exact ⟨i, Finset.mem_range.mpr hiN, by rw [← hbx, hbi]⟩
    · rw [Finset.card_image_of_injOn hinjOn,
        Finset.card_image_of_injective _ (Option.some_injective ℕ)]
  intro v hvN
  have hsome : some v ∈ (Finset.range N).image (fun b => s.bidders_to_items.getD b none) := by
    rw [himg, Finset.mem_image]
    exact ⟨v, Finset.mem_range.mpr hvN, rfl⟩
  rw [Finset.mem_image] at hsome
  obtain ⟨b, hbmem, hbv⟩ := hsome
  rw [Finset.mem_range] at hbmem
  refine ⟨b, ⟨hbmem, hbv⟩, ?_⟩
  intro b2 hb2
  exact hinjOn (by simpa using hb2.1) (by simpa using hbmem) (by simp only [hb2.2, hbv])

/-- C5: a completed phase (the phase engine exits with no unassigned
bidder) yields a perfect matching: every bidder below `N` holds an item
whose reverse entry points back at it, and every item value below `N`
appears exactly once in `bidders_to_items`. -/
theorem c5_phase_perfect_matching (E : AuctionEnv σ) (N fuel : ℕ) (s s' : RunnerState σ)
    (hE : OracleBidsInRange E N)
    (hlen1 : s.bidders_to_items.length = N) (hlen2 : s.items_to_bidders.length = N)
    (hrun : run_auction_phase E fuel (flush_assignment E N s) = .ok s') :
    (∀ b, b < N → ∃ i, i < N ∧ s'.bidders_to_items.getD b none = some i ∧
      s'.items_to_bidders.getD i none = some b) ∧
    (∀ v, v < N → ∃! b, b < N ∧ s'.bidders_to_items.getD b none = some v) := by
  have hinv0 : LedgerInv N (flush_assignment E N s) := flush_LedgerInv E N s hlen1 hlen2
  have hinv1 : LedgerInv N { flush_assignment E N s with result :=
      { (flush_assignment E N s).result with
        num_phases := (flush_assignment E N s).result.num_phases + 1 } } := hinv0
  obtain ⟨hinv2, hemp⟩ := phase_loop_LedgerInv E hE fuel _ s' hrun hinv1
  exact perfect_matching_of_LedgerInv s' hinv2 hemp

/-- Concrete fallback state for extracting results of successful runs. -/
def defaultState : RunnerState (List ℚ) := initial_state (testEnv (fun _ _ => 0)) 0 [] []

theorem c5_phase_perfect_matching_witness :
    (∀ b, b < 2 → ∃ i, i < 2 ∧
      (okOr defaultState (run_auction_phase (testEnv (fun _ _ => 0)) 10
        (flush_assignment (testEnv (fun _ _ => 0)) 2
          (initial_state (testEnv (fun _ _ => 0)) 2 [] [0, 0])))).bidders_to_items.getD b none
        = some i ∧
      (okOr defaultState (run_auction_phase (testEnv (fun _ _ => 0)) 10
        (flush_assignment (testEnv (fun _ _ => 0)) 2
          (initial_state (testEnv (fun _ _ => 0)) 2 [] [0, 0])))).items_to_bidders.getD i none
        = some b) ∧
    (∀ v, v < 2 → ∃! b, b < 2 ∧
      (okOr defaultState (run_auction_phase (testEnv (fun _ _ => 0)) 10
        (flush_assignment (testEnv (fun _ _ => 0)) 2
          (initial_state (testEnv (fun _ _ => 0)) 2 [] [0, 0])))).bidders_to_items.getD b none
        = some v) :=
  c5_phase_perfect_matching (testEnv (fun _ _ => 0)) 2 10
    (initial_state (testEnv (fun _ _ => 0)) 2 [] [0, 0]) _
    (fun _ _ b => Nat.mod_lt b (by decide)) (by decide) (by decide) (by decide)

/-! ### Preservation lemmas for the phase machinery -/

theorem assign_pres (s : RunnerState σ) (item_idx bidder_idx : ℕ) :
    (assign_item_to_bidder s item_idx bidder_idx).oracle_epsilon = s.oracle_epsilon ∧
    (assign_item_to_bidder s item_idx bidder_idx).oracle = s.oracle ∧
    (assign_item_to_bidder s item_idx bidder_idx).result.num_phases = s.result.num_phases ∧
    (assign_item_to_bidder s item_idx bidder_idx).result.final_epsilon
      = s.result.final_epsilon ∧
    (assign_item_to_bidder s item_idx bidder_idx).result.final_relative_error
      = s.result.final_relative_error ∧
    (assign_item_to_bidder s item_idx bidder_idx).result.start_epsilon
      = s.result.start_epsilon ∧
    (assign_item_to_bidder s item_idx bidder_idx).result.cost = s.result.cost := by
  cases hold : s.items_to_bidders.getD item_idx none with
  | none => rw [assign_eq_of_none s item_idx bidder_idx hold]; exact ⟨rfl, rfl, rfl, rfl, rfl, rfl, rfl⟩
  | some old => rw [assign_eq_of_some s item_idx bidder_idx old hold]; exact ⟨rfl, rfl, rfl, rfl, rfl, rfl, rfl⟩

theorem phase_loop_pres (E : AuctionEnv σ) :
    ∀ (fuel : ℕ) (s s' : RunnerState σ), phase_loop E fuel s = .ok s' →
      s'.oracle_epsilon = s.oracle_epsilon ∧
      s'.result.num_phases = s.result.num_phases ∧
      s'.result.final_epsilon = s.result.final_epsilon ∧
      s'.result.final_relative_error = s.result.final_relative_error ∧
      s'.result.start_epsilon = s.result.start_epsilon := by
  intro fuel
  induction fuel with
  | zero =>
    intro s s' h
    exact absurd h (by simp [phase_loop])
  | succ fuel ih =>
    intro s s' h
    simp only [phase_loop] at h
    split at h
    case isTrue hne =>
      obtain ⟨ha1, _, ha3, ha4, ha5, ha6, _⟩ := assign_pres s
        (E.ops.get_optimal_bid s.oracle_epsilon s.oracle (s.unassigned_bidders.min' hne)).1
        (s.unassigned_bidders.min' hne)
      split at h
      case isTrue hempty =>
        cases h
        exact ⟨ha1, ha3, ha4, ha5, ha6⟩
      case isFalse hempty =>
        obtain ⟨hb1, hb2, hb3, hb4, hb5⟩ := ih _ _ h
        exact ⟨hb1.trans ha1, hb2.trans ha3, hb3.trans ha4, hb4.trans ha5, hb5.trans ha6⟩
    case isFalse hne =>
      exact Except.noConfusion h

theorem run_auction_phase_pres (E : AuctionEnv σ) (fuel : ℕ) (s s' : RunnerState σ)
    (h : run_auction_phase E fuel s = .ok s') :
    s'.oracle_epsilon = s.oracle_epsilon ∧
    s'.result.num_phases = s.result.num_phases + 1 ∧
    s'.result.final_epsilon = s.result.final_epsilon ∧
    s'.result.final_relative_error = s.result.final_relative_error ∧
    s'.result.start_epsilon = s.result.start_epsilon := by
  obtain ⟨h1, h2, h3, h4, h5⟩ := phase_loop_pres E fuel _ s' h
  exact ⟨h1, h2, h3, h4, h5⟩

/-- The per-bidder cost contribution of the current assignment, with zero
for an unassigned bidder (which `getDistanceToQthPowerInternal` never
tolerates: it throws instead). -/
def costOf (E : AuctionEnv σ) (params : AuctionParams) (s : RunnerState σ) (b : ℕ) : ℚ :=
  match s.bidders_to_items.getD b none with
  | some i => E.powr (E.dist_lp b i params.internal_p params.dim) params.wasserstein_power
  | none => 0

theorem costSum_ok (E : AuctionEnv σ) (params : AuctionParams) (s : RunnerState σ) :
    ∀ (l : List ℕ) (acc r : ℚ), costSum E params s l acc = .ok r →
      (∀ b ∈ l, ∃ i, s.bidders_to_items.getD b none = some i) ∧
      r = acc + (l.map (costOf E params s)).sum := by
  intro l
  induction l with
  | nil =>
    intro acc r h
    cases h
    exact ⟨fun b hb => absurd hb (List.not_mem_nil b), by simp⟩
  | cons bIdx rest ih =>
    intro acc r h
    simp only [costSum] at h
    cases hb : s.bidders_to_items.getD bIdx none with
    | none =>
      rw [hb] at h
      simp [get_item_bidder_cost] at h
    | some i =>
      rw [hb] at h
      simp only [get_item_bidder_cost, ne_eq, reduceCtorEq, not_false_eq_true, and_self,
        if_true, Option.getD_some, if_pos] at h
      obtain ⟨hmem, hsum⟩ := ih _ _ h
      refine ⟨?_, ?_⟩
      · intro b hbmem
        rcases List.mem_cons.mp hbmem with hcase | hcase
        · exact ⟨i, hcase ▸ hb⟩
        · exact hmem b hcase
      · rw [hsum, List.map_cons, List.sum_cons, costOf, hb, add_assoc]

theorem getDistance_ok_spec (E : AuctionEnv σ) (params : AuctionParams) (N : ℕ)
    (s s' : RunnerState σ) (h : getDistanceToQthPowerInternal E params N s = .ok s') :
    s'.bidders_to_items = s.bidders_to_items ∧
    s'.items_to_bidders = s.items_to_bidders ∧
    s'.unassigned_bidders = s.unassigned_bidders ∧
    s'.oracle_epsilon = s.oracle_epsilon ∧
    s'.oracle = s.oracle ∧
    s'.result.num_phases = s.result.num_phases ∧
    s'.result.final_epsilon = s.result.final_epsilon ∧
    s'.result.final_relative_error = s.result.final_relative_error ∧
    s'.result.start_epsilon = s.result.start_epsilon ∧
    (∀ b, b < N → ∃ i, s.bidders_to_items.getD b none = some i) ∧
    s'.result.cost = ((List.range N).map (costOf E params s)).sum := by
  simp only [getDistanceToQthPowerInternal] at h
  cases hc : costSum E params s (List.range N) 0 with
  | error e =>
    rw [hc] at h
    exact Except.noConfusion h
  | ok r =>
    rw [hc] at h
    cases h
    obtain ⟨hmem, hsum⟩ := costSum_ok E params s (List.range N) 0 r hc
    refine ⟨rfl, rfl, rfl, rfl, rfl, rfl, rfl, rfl, rfl, ?_, ?_⟩
    · intro b hbN
      exact hmem b (List.mem_range.mpr hbN)
    · rw [hsum, zero_add]

/-! ### C4: the per-phase convergence test -/

/-- The closed-form certified relative error bound stated by the spec:
`(C^(1/q) - (C - N*eps)^(1/q)) / (C - N*eps)^(1/q)` for the cost `C` and
epsilon recorded in a state.  Defined from the spec formula to be compared
with what the code computes. -/
def spec_rel_error (E : AuctionEnv σ) (params : AuctionParams) (N : ℕ)
    (s : RunnerState σ) : ℚ :=
  (E.powr s.result.cost (1 / params.wasserstein_power) -
    E.powr (s.result.cost - (N:ℚ) * s.oracle_epsilon) (1 / params.wasserstein_power)) /
    E.powr (s.result.cost - (N:ℚ) * s.oracle_epsilon) (1 / params.wasserstein_power)

/-- Store a relative error in the result accumulator. -/
def set_rel_error (s : RunnerState σ) (v : ℚ) : RunnerState σ :=
  { s with result := { s.result with final_relative_error := v } }

/-- C4: one iteration of the phase loop, after the phase has produced a
perfect matching whose cost `C = s3.result.cost` was just recomputed at
epsilon `e = s3.oracle_epsilon`: the relative error is evaluated only when
`C - N*e > 0`, in which case the stored value is exactly the closed
formula `spec_rel_error`; the loop breaks as converged exactly when that
value is at most `delta`; otherwise (including the non-positive
denominator case, which leaves the stored error untouched) epsilon is
divided by `epsilon_common_ratio` and the loop continues with one fewer
phase remaining, stopping when no phase remains. -/
theorem c4_phase_iteration (E : AuctionEnv σ) (params : AuctionParams) (N fuel r : ℕ)
    (s s2 s3 : RunnerState σ)
    (h2 : run_auction_phase E fuel (flush_assignment E N s) = .ok s2)
    (h3 : getDistanceToQthPowerInternal E params N s2 = .ok s3) :
    ((0:ℚ) < s3.result.cost - (N:ℚ) * s3.oracle_epsilon →
      (spec_rel_error E params N s3 ≤ params.delta →
        phase_iters E params N fuel (r + 1) s =
          .ok (set_rel_error s3 (spec_rel_error E params N s3))) ∧
      (params.delta < spec_rel_error E params N s3 →
        phase_iters E params N fuel (r + 1) s =
          phase_iters E params N fuel r
            (next_epsilon params (set_rel_error s3 (spec_rel_error E params N s3))))) ∧
    (¬ (0:ℚ) < s3.result.cost - (N:ℚ) * s3.oracle_epsilon →
      phase_iters E params N fuel (r + 1) s =
        phase_iters E params N fuel r (next_epsilon params s3) ∧
      s3.result.final_relative_error = s2.result.final_relative_error) ∧
    (next_epsilon params s3).oracle_epsilon
      = s3.oracle_epsilon / params.epsilon_common_ratio ∧
    phase_iters E params N fuel 0 s3 = .ok s3 := by
  have hunfold : phase_iters E params N fuel (r + 1) s =
      (if 0 < s3.result.cost - (N:ℚ) * s3.oracle_epsilon then
        if spec_rel_error E params N s3 ≤ params.delta then
          .ok (set_rel_error s3 (spec_rel_error E params N s3))
        else phase_iters E params N fuel r
          (next_epsilon params (set_rel_error s3 (spec_rel_error E params N s3)))
      else phase_iters E params N fuel r (next_epsilon params s3)) := by
    simp only [phase_iters, h2, h3]
    rfl
  refine ⟨?_, ?_, rfl, rfl⟩
  · intro hden
    constructor
    · intro hrel
      rw [hunfold, if_pos hden, if_pos hrel]
    · intro hrel
      rw [hunfold, if_pos hden, if_neg (not_le.mpr hrel)]
  · intro hden
    refine ⟨by rw [hunfold, if_neg hden], ?_⟩
    exact (getDistance_ok_spec E params N s2 s3 h3).2.2.2.2.2.2.2.1

/-- Concrete inputs for the C4 witness: one executed phase of a
two-point instance with all ground distances equal to 2. -/
def c4start : RunnerState (List ℚ) := initial_state (testEnv (fun _ _ => 2)) 2 [] [0, 0]

def c4s2 : RunnerState (List ℚ) :=
  okOr defaultState (run_auction_phase (testEnv (fun _ _ => 2)) 10
    (flush_assignment (testEnv (fun _ _ => 2)) 2 c4start))

def c4s3 : RunnerState (List ℚ) :=
  okOr defaultState
    (getDistanceToQthPowerInternal (testEnv (fun _ _ => 2)) testParams 2 c4s2)

theorem c4_phase_iteration_witness :
    ((0:ℚ) < c4s3.result.cost - (2:ℚ) * c4s3.oracle_epsilon →
      (spec_rel_error (testEnv (fun _ _ => 2)) testParams 2 c4s3 ≤ testParams.delta →
        phase_iters (testEnv (fun _ _ => 2)) testParams 2 10 (0 + 1) c4start =
          .ok (set_rel_error c4s3
            (spec_rel_error (testEnv (fun _ _ => 2)) testParams 2 c4s3))) ∧
      (testParams.delta < spec_rel_error (testEnv (fun _ _ => 2)) testParams 2 c4s3 →
        phase_iters (testEnv (fun _ _ => 2)) testParams 2 10 (0 + 1) c4start =
          phase_iters (testEnv (fun _ _ => 2)) testParams 2 10 0
            (next_epsilon testParams (set_rel_error c4s3
              (spec_rel_error (testEnv (fun _ _ => 2)) testParams 2 c4s3))))) ∧
    (¬ (0:ℚ) < c4s3.result.cost - (2:ℚ) * c4s3.oracle_epsilon →
      phase_iters (testEnv (fun _ _ => 2)) testParams 2 10 (0 + 1) c4start =
        phase_iters (testEnv (fun _ _ => 2)) testParams 2 10 0
          (next_epsilon testParams c4s3) ∧
      c4s3.result.final_relative_error = c4s2.result.final_relative_error) ∧
    (next_epsilon testParams c4s3).oracle_epsilon
      = c4s3.oracle_epsilon / testParams.epsilon_common_ratio ∧
    phase_iters (testEnv (fun _ _ => 2)) testParams 2 10 0 c4s3 = .ok c4s3 :=
  c4_phase_iteration (testEnv (fun _ _ => 2)) testParams 2 10 0 c4start c4s2 c4s3 rfl rfl

/-! ### The phase-loop dichotomy: exhaustion versus convergence -/

/-- Master lemma for the phase loop.  Starting from a state whose stored
relative error exceeds `delta` and whose `final_epsilon` mirrors the
oracle epsilon, a successful run of `r` remaining phases either ran all
`r` of them with the stored error still above `delta` (exhaustion) — in
which case the epsilon was divided by the common ratio once per phase and
`final_epsilon` records the next, unused epsilon — or broke out with the
error at most `delta` (convergence) — in which case `final_epsilon` is
exactly the epsilon in force during the converged phase. -/
theorem phase_iters_cases (E : AuctionEnv σ) (params : AuctionParams) (N fuel : ℕ) :
    ∀ (r : ℕ) (s s' : RunnerState σ),
      phase_iters E params N fuel r s = .ok s' →
      params.delta < s.result.final_relative_error →
      s.result.final_epsilon = s.oracle_epsilon →
      (params.delta < s'.result.final_relative_error ∧
        s'.result.num_phases = s.result.num_phases + r ∧
        s'.oracle_epsilon = s.oracle_epsilon / params.epsilon_common_ratio ^ r ∧
        s'.result.final_epsilon = s'.oracle_epsilon) ∨
      (s'.result.final_relative_error ≤ params.delta ∧
        s.result.num_phases < s'.result.num_phases ∧
        s'.result.num_phases ≤ s.result.num_phases + r ∧
        s'.oracle_epsilon = s.oracle_epsilon /
          params.epsilon_common_ratio ^
            (s'.result.num_phases - s.result.num_phases - 1) ∧
        s'.result.final_epsilon = s'.oracle_epsilon) := by
  intro r
  induction r with
  | zero =>
    intro s s' h hrel hfe
    cases h
    left
    exact ⟨hrel, (Nat.add_zero _).symm, by rw [pow_zero, div_one], hfe⟩
  | succ n ih =>
    intro s s' h hrel hfe
    cases hrp : run_auction_phase E fuel (flush_assignment E N s) with
    | error e =>
      simp only [phase_iters, hrp] at h
      exact Except.noConfusion h
    | ok s2 =>
      cases hgd : getDistanceToQthPowerInternal E params N s2 with
      | error e =>
        simp only [phase_iters, hrp, hgd] at h
        exact Except.noConfusion h
      | ok s3 =>
        have hrp_pres := run_auction_phase_pres E fuel (flush_assignment E N s) s2 hrp
        have hgd_spec := getDistance_ok_spec E params N s2 s3 hgd
        have h_eps3 : s3.oracle_epsilon = s.oracle_epsilon :=
          (hgd_spec.2.2.2.1).trans hrp_pres.1
        have h_num3 : s3.result.num_phases = s.result.num_phases + 1 :=
          (hgd_spec.2.2.2.2.2.1).trans hrp_pres.2.1
        have h_fe3 : s3.result.final_epsilon = s.result.final_epsilon :=
          (hgd_spec.2.2.2.2.2.2.1).trans hrp_pres.2.2.1
        have h_rel3 : s3.result.final_relative_error = s.result.final_relative_error :=
          (hgd_spec.2.2.2.2.2.2.2.1).trans hrp_pres.2.2.2.1
        obtain ⟨hpos, hneg, _, _⟩ :=
          c4_phase_iteration E params N fuel n s s2 s3 hrp hgd
        have main : ∀ t : RunnerState σ,
            t.oracle_epsilon = s.oracle_epsilon / params.epsilon_common_ratio →
            t.result.num_phases = s.result.num_phases + 1 →
            params.delta < t.result.final_relative_error →
            t.result.final_epsilon = t.oracle_epsilon →
            phase_iters E params N fuel n t = .ok s' →
            (params.delta < s'.result.final_relative_error ∧
              s'.result.num_phases = s.result.num_phases + (n + 1) ∧
              s'.oracle_epsilon = s.oracle_epsilon /
                params.epsilon_common_ratio ^ (n + 1) ∧
              s'.result.final_epsilon = s'.oracle_epsilon) ∨
            (s'.result.final_relative_error ≤ params.delta ∧
              s.result.num_phases < s'.result.num_phases ∧
              s'.result.num_phases ≤ s.result.num_phases + (n + 1) ∧
              s'.oracle_epsilon = s.oracle_epsilon /
                params.epsilon_common_ratio ^
                  (s'.result.num_phases - s.result.num_phases - 1) ∧
              s'.result.final_epsilon = s'.oracle_epsilon) := by
          intro t hte htn htr htf hrun
          rcases ih t s' hrun htr htf with ⟨L1, L2, L3, L4⟩ | ⟨R1, R2, R3, R4, R5⟩
          · left
            refine ⟨L1, by omega, ?_, L4⟩
            rw [L3, hte, div_div, ← pow_succ']
          · right
            refine ⟨R1, by omega, by omega, ?_, R5⟩
            have hk : s'.result.num_phases - s.result.num_phases - 1
                = (s'.result.num_phases - t.result.num_phases - 1) + 1 := by omega
            rw [hk, R4, hte, div_div, ← pow_succ']
        by_cases hden : (0:ℚ) < s3.result.cost - (N:ℚ) * s3.oracle_epsilon
        · obtain ⟨hbreak, hcont⟩ := hpos hden
          by_cases hrel2 : spec_rel_error E params N s3 ≤ params.delta
          · have hs' : s' = set_rel_error s3 (spec_rel_error E params N s3) :=
              (Except.ok.inj ((hbreak hrel2).symm.trans h)).symm
            subst hs'
            right
            have hsu : (set_rel_error s3 (spec_rel_error E params N s3)).result.num_phases
                = s.result.num_phases + 1 := h_num3
            refine ⟨hrel2, by omega, by omega, ?_, ?_⟩
            · have h0 : (set_rel_error s3 (spec_rel_error E params N s3)).result.num_phases
                  - s.result.num_phases - 1 = 0 := by omega
              rw [h0, pow_zero, div_one]
              exact h_eps3
            · show s3.result.final_epsilon = s3.oracle_epsilon
              rw [h_fe3, hfe, h_eps3]
          · have hrun : phase_iters E params N fuel n
                (next_epsilon params (set_rel_error s3 (spec_rel_error E params N s3)))
                = .ok s' := (hcont (not_le.mp hrel2)).symm.trans h
            refine main _ ?_ ?_ ?_ rfl hrun
            · show s3.oracle_epsilon / params.epsilon_common_ratio
                = s.oracle_epsilon / params.epsilon_common_ratio
              rw [h_eps3]
            · exact h_num3
            · exact not_le.mp hrel2
        · obtain ⟨hstep, _⟩ := hneg hden
          have hrun : phase_iters E params N fuel n (next_epsilon params s3) = .ok s' :=
            hstep.symm.trans h
          refine main _ ?_ ?_ ?_ rfl hrun
          · show s3.oracle_epsilon / params.epsilon_common_ratio
              = s.oracle_epsilon / params.epsilon_common_ratio
            rw [h_eps3]
          · exact h_num3
          · show params.delta < s3.result.final_relative_error
            rw [h_rel3]
            exact hrel

/-- The phase-loop dichotomy lifted to `run_auction_phases`: a successful
run either exhausted all `max_num_phases` phases with a relative error
still above `delta`, or converged with the error at most `delta`. -/
theorem run_auction_phases_cases (E : AuctionEnv σ) (params : AuctionParams) (N fuel : ℕ)
    (s0 sp : RunnerState σ)
    (h : run_auction_phases E params N fuel s0 = .ok sp)
    (hmax : params.delta < E.real_max) :
    (params.delta < sp.result.final_relative_error ∧
      sp.result.num_phases = s0.result.num_phases + params.max_num_phases ∧
      sp.oracle_epsilon = params.initial_epsilon /
        params.epsilon_common_ratio ^ params.max_num_phases ∧
      sp.result.final_epsilon = sp.oracle_epsilon) ∨
    (sp.result.final_relative_error ≤ params.delta ∧
      s0.result.num_phases < sp.result.num_phases ∧
      sp.result.num_phases ≤ s0.result.num_phases + params.max_num_phases ∧
      sp.oracle_epsilon = params.initial_epsilon /
        params.epsilon_common_ratio ^
          (sp.result.num_phases - s0.result.num_phases - 1) ∧
      sp.result.final_epsilon = sp.oracle_epsilon) := by
  simp only [run_auction_phases] at h
  cases hpi : phase_iters E params N fuel params.max_num_phases
      (init_phase_state E params s0) with
  | error e =>
    rw [hpi] at h
    exact Except.noConfusion h
  | ok s1 =>
    rw [hpi] at h
    have hsp : sp = { s1 with result :=
        { s1.result with prices := E.ops.get_prices s1.oracle } } :=
      (Except.ok.inj h).symm
    subst hsp
    have hinit_rel : params.delta <
        (init_phase_state E params s0).result.final_relative_error := hmax
    have hinit_fe : (init_phase_state E params s0).result.final_epsilon
        = (init_phase_state E params s0).oracle_epsilon := rfl
    rcases phase_iters_cases E params N fuel params.max_num_phases _ s1 hpi
        hinit_rel hinit_fe with ⟨L1, L2, L3, L4⟩ | ⟨R1, R2, R3, R4, R5⟩
    · exact Or.inl ⟨L1, L2, L3, L4⟩
    · exact Or.inr ⟨R1, R2, R3, R4, R5⟩

/-! ### C1: behavior on convergence failure -/

/-- C1: a run of `run_auction` whose phase loop exhausted
`max_num_phases` without bringing the relative error down to `delta`
(equivalently, by `run_auction_phases_cases`, whose final relative error
is still above `delta` — the first conjunct of the conclusion confirms
that all `max_num_phases` phases were indeed executed): with
`tolerate_max_iter_exceeded` false the run fails with the
maximum-iteration-exceeded error, and with the flag true it completes
normally, carrying the last completed phase's matching and cost and a
`final_relative_error` still above `delta`.  `DEBUG_AUCTION` is modelled
as enabled (see its definition). -/
theorem c1_convergence_failure (E : AuctionEnv σ) (params : AuctionParams) (N fuel : ℕ)
    (s0 sp : RunnerState σ)
    (hN : N ≠ 1)
    (hphases : run_auction_phases E params N fuel s0 = .ok sp)
    (hnoconv : params.delta < sp.result.final_relative_error)
    (hmax : params.delta < E.real_max) :
    sp.result.num_phases = s0.result.num_phases + params.max_num_phases ∧
    (params.tolerate_max_iter_exceeded = false →
      run_auction E params N fuel s0 = .error .maxIterExceeded) ∧
    (params.tolerate_max_iter_exceeded = true →
      ∃ s', run_auction E params N fuel s0 = .ok s' ∧
        params.delta < s'.result.final_relative_error ∧
        s'.result.cost = sp.result.cost ∧
        s'.bidders_to_items = sp.bidders_to_items ∧
        s'.items_to_bidders = sp.items_to_bidders) := by
  have hnum : sp.result.num_phases = s0.result.num_phases + params.max_num_phases := by
    rcases run_auction_phases_cases E params N fuel s0 sp hphases hmax with
      ⟨_, h2, _, _⟩ | ⟨h1, _, _, _, _⟩
    · exact h2
    · exact absurd h1 (not_le.mpr hnoconv)
  refine ⟨hnum, ?_, ?_⟩
  · intro htol
    have hmain : run_auction_main E params N fuel s0 = .error .maxIterExceeded := by
      simp only [run_auction_main, if_neg hN, hphases]
      rw [if_pos ⟨rfl, hnoconv, htol⟩]
    simp only [run_auction, hmain]
  · intro htol
    have hcond : ¬ (DEBUG_AUCTION ∧ params.delta < sp.result.final_relative_error ∧
        params.tolerate_max_iter_exceeded = false) := by
      intro hc
      rw [htol] at hc
      exact Bool.noConfusion hc.2.2
    have hmain : run_auction_main E params N fuel s0 = .ok sp := by
      simp only [run_auction_main, if_neg hN, hphases]
      rw [if_neg hcond]
    cases hm : params.return_matching with
    | false =>
      refine ⟨{ sp with
          result := compute_distance E params.wasserstein_power sp.result
          is_distance_computed := true }, ?_, hnoconv, rfl, rfl, rfl⟩
      simp only [run_auction, hmain, hm]
      rfl
    | true =>
      refine ⟨{ { sp with
          result := compute_distance E params.wasserstein_power sp.result
          is_distance_computed := true } with result :=
            { (compute_distance E params.wasserstein_power sp.result) with
              matching := extract_matching E N { sp with
                result := compute_distance E params.wasserstein_power sp.result
                is_distance_computed := true } } }, ?_, hnoconv, rfl, rfl, rfl⟩
      simp only [run_auction, hmain, hm]
      rfl

/-- Concrete inputs for the C1 witness: all ground distances zero, so the
cost is 0, the error denominator is never positive, and the run can never
converge. -/
def c1start : RunnerState (List ℚ) := initial_state (testEnv (fun _ _ => 0)) 2 [] [0, 0]

def c1sp : RunnerState (List ℚ) :=
  okOr defaultState (run_auction_phases (testEnv (fun _ _ => 0)) testParams 2 10 c1start)

theorem c1_convergence_failure_witness :
    c1sp.result.num_phases = c1start.result.num_phases + testParams.max_num_phases ∧
    (testParams.tolerate_max_iter_exceeded = false →
      run_auction (testEnv (fun _ _ => 0)) testParams 2 10 c1start
        = .error .maxIterExceeded) ∧
    (testParams.tolerate_max_iter_exceeded = true →
      ∃ s', run_auction (testEnv (fun _ _ => 0)) testParams 2 10 c1start = .ok s' ∧
        testParams.delta < s'.result.final_relative_error ∧
        s'.result.cost = c1sp.result.cost ∧
        s'.bidders_to_items = c1sp.bidders_to_items ∧
        s'.items_to_bidders = c1sp.items_to_bidders) :=
  c1_convergence_failure (testEnv (fun _ _ => 0)) testParams 2 10 c1start c1sp
    (by decide) (by with_unfolding_all decide) (by with_unfolding_all decide)
    (by with_unfolding_all decide)

/-! ### C8: cost consistency -/

/-- The cost recorded in the result matches an independent recomputation
over the current assignment, and the assignment is total. -/
def GoodCost (E : AuctionEnv σ) (params : AuctionParams) (N : ℕ) (s : RunnerState σ) : Prop :=
  (∀ b, b < N → ∃ i, s.bidders_to_items.getD b none = some i) ∧
  s.result.cost = ((List.range N).map (costOf E params s)).sum

theorem good_of_getDistance (E : AuctionEnv σ) (params : AuctionParams) (N : ℕ)
    (s2 s3 : RunnerState σ) (h : getDistanceToQthPowerInternal E params N s2 = .ok s3) :
    GoodCost E params N s3 := by
  obtain ⟨harr, _, _, _, _, _, _, _, _, hmem, hcost⟩ := getDistance_ok_spec E params N s2 s3 h
  have hco : costOf E params s3 = costOf E params s2 := by
    funext b
    simp only [costOf, harr]
  constructor
  · intro b hbN
    rw [harr]
    exact hmem b hbN
  · rw [hcost, hco]

theorem phase_iters_good (E : AuctionEnv σ) (params : AuctionParams) (N fuel : ℕ) :
    ∀ (r : ℕ) (s s' : RunnerState σ), phase_iters E params N fuel r s = .ok s' →
      (r = 0 → GoodCost E params N s) → GoodCost E params N s' := by
  intro r
  induction r with
  | zero =>
    intro s s' h h0
    cases h
    exact h0 rfl
  | succ n ih =>
    intro s s' h _
    cases hrp : run_auction_phase E fuel (flush_assignment E N s) with
    | error e =>
      simp only [phase_iters, hrp] at h
      exact Except.noConfusion h
    | ok s2 =>
      cases hgd : getDistanceToQthPowerInternal E params N s2 with
      | error e =>
        simp only [phase_iters, hrp, hgd] at h
        exact Except.noConfusion h
      | ok s3 =>
        have good3 : GoodCost E params N s3 := good_of_getDistance E params N s2 s3 hgd
        obtain ⟨hpos, hneg, _, _⟩ := c4_phase_iteration E params N fuel n s s2 s3 hrp hgd
        by_cases hden : (0:ℚ) < s3.result.cost - (N:ℚ) * s3.oracle_epsilon
        · obtain ⟨hbreak, hcont⟩ := hpos hden
          by_cases hrel2 : spec_rel_error E params N s3 ≤ params.delta
          · have hs' : s' = set_rel_error s3 (spec_rel_error E params N s3) :=
              (Except.ok.inj ((hbreak hrel2).symm.trans h)).symm
            subst hs'
            exact good3
          · exact ih _ s' ((hcont (not_le.mp hrel2)).symm.trans h) (fun _ => good3)
        · obtain ⟨hstep, _⟩ := hneg hden
          exact ih _ s' (hstep.symm.trans h) (fun _ => good3)

/-- C8: after a completed `run_auction` (started from a
constructor-produced state, with at least one phase allowed), every
bidder holds an item and `result.cost` equals the sum over all bidders of
`dist_lp(bidder, assigned item, internal_p, dim)^wasserstein_power`. -/
theorem c8_cost_consistency (E : AuctionEnv σ) (params params0 : AuctionParams)
    (N fuel : ℕ) (prices : List ℚ) (st0 : σ) (s' : RunnerState σ)
    (hmaxphases : 1 ≤ params.max_num_phases)
    (hrun : run_auction E params N fuel (AuctionRunnerGS_mk E params0 N prices st0).2
      = .ok s') :
    (∀ b, b < N → ∃ i, s'.bidders_to_items.getD b none = some i) ∧
    s'.result.cost = ((List.range N).map (costOf E params s')).sum := by
  cases hm : run_auction_main E params N fuel (AuctionRunnerGS_mk E params0 N prices st0).2 with
  | error e =>
    simp only [run_auction, hm] at hrun
    exact Except.noConfusion hrun
  | ok s1 =>
    have good1 : GoodCost E params N s1 := by
      by_cases hN : N = 1
      · subst hN
        have hgc : get_item_bidder_cost E params (some 0) (some 0) false =
            .ok (E.powr (E.dist_lp 0 0 params.internal_p params.dim)
              params.wasserstein_power) := rfl
        have hmain : run_auction_main E params 1 fuel
            (AuctionRunnerGS_mk E params0 1 prices st0).2 =
            .ok { assign_item_to_bidder (AuctionRunnerGS_mk E params0 1 prices st0).2 0 0 with
              result := { (assign_item_to_bidder
                  (AuctionRunnerGS_mk E params0 1 prices st0).2 0 0).result with
                cost := E.powr (E.dist_lp 0 0 params.internal_p params.dim)
                  params.wasserstein_power } } := by
          simp only [run_auction_main, hgc]
          rfl
        have hs1 := Except.ok.inj (hmain.symm.trans hm)
        subst hs1
        have hassign : (assign_item_to_bidder
            (AuctionRunnerGS_mk E params0 1 prices st0).2 0 0).bidders_to_items
            = [some 0] := by
          have hold : ((AuctionRunnerGS_mk E params0 1 prices st0).2).items_to_bidders.getD
              0 none = none := rfl
          rw [assign_eq_of_none _ _ _ hold]
          rfl
        constructor
        · intro b hb
          interval_cases b
          exact ⟨0, by simp [hassign]⟩
        · have hsum : List.range 1 = [0] := rfl
          rw [hsum, List.map_cons, List.map_nil, List.sum_cons, List.sum_nil, add_zero]
          rfl
      · simp only [run_auction_main, if_neg hN] at hm
        cases hph : run_auction_phases E params N fuel
            (AuctionRunnerGS_mk E params0 N prices st0).2 with
        | error e =>
          rw [hph] at hm
          exact Except.noConfusion hm
        | ok sp =>
          rw [hph] at hm
          have goodsp : GoodCost E params N sp := by
            simp only [run_auction_phases] at hph
            cases hpi : phase_iters E params N fuel params.max_num_phases
                (init_phase_state E params (AuctionRunnerGS_mk E params0 N prices st0).2) with
            | error e =>
              rw [hpi] at hph
              exact Except.noConfusion hph
            | ok s1' =>
              rw [hpi] at hph
              have hspv : sp = { s1' with result :=
                  { s1'.result with prices := E.ops.get_prices s1'.oracle } } :=
                (Except.ok.inj hph).symm
              have good1' : GoodCost E params N s1' :=
                phase_iters_good E params N fuel params.max_num_phases _ s1' hpi
                  (fun h0 => absurd (h0 ▸ hmaxphases) (by omega))
              subst hspv
              exact good1'
          have hm2 : (if DEBUG_AUCTION ∧ params.delta < sp.result.final_relative_error ∧
              params.tolerate_max_iter_exceeded = false then
              (.error .maxIterExceeded : Except AuctionError (RunnerState σ))
            else .ok sp) = .ok s1 := hm
          split at hm2
          · exact Except.noConfusion hm2
          · have hs1 : s1 = sp := (Except.ok.inj hm2).symm
            subst hs1
            exact goodsp
    have harr : s'.bidders_to_items = s1.bidders_to_items ∧
        s'.result.cost = s1.result.cost := by
      simp only [run_auction, hm] at hrun
      split at hrun
      · have := (Except.ok.inj hrun).symm
        subst this
        exact ⟨rfl, rfl⟩
      · have := (Except.ok.inj hrun).symm
        subst this
        exact ⟨rfl, rfl⟩
    obtain ⟨hmem1, hcost1⟩ := good1
    have hco : costOf E params s' = costOf E params s1 := by
      funext b
      simp only [costOf, harr.1]
    constructor
    · intro b hbN
      rw [harr.1]
      exact hmem1 b hbN
    · rw [harr.2, hcost1, hco]

theorem c8_cost_consistency_witness :
    (∀ b, b < 2 → ∃ i,
      (okOr defaultState (run_auction (testEnv (fun _ _ => 0))
        { testParams with tolerate_max_iter_exceeded := true } 2 10
        (AuctionRunnerGS_mk (testEnv (fun _ _ => 0)) testParams 2 [] [0, 0]).2)
        ).bidders_to_items.getD b none = some i) ∧
    (okOr defaultState (run_auction (testEnv (fun _ _ => 0))
        { testParams with tolerate_max_iter_exceeded := true } 2 10
        (AuctionRunnerGS_mk (testEnv (fun _ _ => 0)) testParams 2 [] [0, 0]).2)
      ).result.cost =
      ((List.range 2).map (costOf (testEnv (fun _ _ => 0))
        { testParams with tolerate_max_iter_exceeded := true }
        (okOr defaultState (run_auction (testEnv (fun _ _ => 0))
          { testParams with tolerate_max_iter_exceeded := true } 2 10
          (AuctionRunnerGS_mk (testEnv (fun _ _ => 0)) testParams 2 [] [0, 0]).2)))).sum :=
  c8_cost_consistency (testEnv (fun _ _ => 0))
    { testParams with tolerate_max_iter_exceeded := true } testParams 2 10 [] [0, 0] _
    (by decide) (by with_unfolding_all decide)

/-! ### The epsilon trajectory, observed through a logging oracle

The code is generic over the oracle, so running it with `withLogOps`
(which records the epsilon in force at every `adjust_prices` call, i.e.
at the start of every phase) observes exactly the sequence of epsilon
values used across phases without changing any behavior. -/

theorem phase_loop_log {τ : Type} (E : AuctionEnv τ) :
    ∀ (fuel : ℕ) (s s' : RunnerState (τ × List ℚ)),
      phase_loop (withLogEnv E) fuel s = .ok s' → s'.oracle.2 = s.oracle.2 := by
  intro fuel
  induction fuel with
  | zero =>
    intro s s' h
    exact absurd h (by simp [phase_loop])
  | succ fuel ih =>
    intro s s' h
    simp only [phase_loop] at h
    split at h
    case isTrue hne =>
      have ho : (assign_item_to_bidder s
          ((withLogEnv E).ops.get_optimal_bid s.oracle_epsilon s.oracle
            (s.unassigned_bidders.min' hne)).1 (s.unassigned_bidders.min' hne)).oracle
          = s.oracle := (assign_pres s _ _).2.1
      split at h
      case isTrue hempty =>
        cases h
        show ((withLogEnv E).ops.set_price _ _ _ _).2 = s.oracle.2
        rw [show ((withLogEnv E).ops.set_price _
          (assign_item_to_bidder s _ _).oracle _ _).2
            = (assign_item_to_bidder s _ _).oracle.2 from rfl, ho]
      case isFalse hempty =>
        rw [ih _ _ h]
        show ((withLogEnv E).ops.set_price _ _ _ _).2 = s.oracle.2
        rw [show ((withLogEnv E).ops.set_price _
          (assign_item_to_bidder s _ _).oracle _ _).2
            = (assign_item_to_bidder s _ _).oracle.2 from rfl, ho]
    case isFalse hne =>
      exact Except.noConfusion h

/-- Peel one term off a geometric epsilon sequence. -/
theorem geom_cons (e q : ℚ) (k : ℕ) :
    (List.range (k + 1)).map (fun j => e / q ^ j)
      = e :: (List.range k).map (fun j => (e / q) / q ^ j) := by
  rw [List.range_succ_eq_map, List.map_cons, List.map_map]
  congr 1
  · rw [pow_zero, div_one]
  · apply List.map_congr_left
    intro j _
    show e / q ^ (j + 1) = (e / q) / q ^ j
    rw [div_div, ← pow_succ']

/-- The log collected by a successful run of the phase loop is exactly the
geometric epsilon sequence, one entry per executed phase. -/
theorem phase_iters_log {τ : Type} (E : AuctionEnv τ) (params : AuctionParams)
    (N fuel : ℕ) :
    ∀ (r : ℕ) (s s' : RunnerState (τ × List ℚ)),
      phase_iters (withLogEnv E) params N fuel r s = .ok s' →
      ∃ k, k ≤ r ∧
        s'.oracle.2 = s.oracle.2 ++
          (List.range k).map
            (fun j => s.oracle_epsilon / params.epsilon_common_ratio ^ j) ∧
        s'.result.num_phases = s.result.num_phases + k := by
  intro r
  induction r with
  | zero =>
    intro s s' h
    cases h
    exact ⟨0, Nat.le_refl 0, by simp, rfl⟩
  | succ n ih =>
    intro s s' h
    cases hrp : run_auction_phase (withLogEnv E) fuel
        (flush_assignment (withLogEnv E) N s) with
    | error e =>
      simp only [phase_iters, hrp] at h
      exact Except.noConfusion h
    | ok s2 =>
      cases hgd : getDistanceToQthPowerInternal (withLogEnv E) params N s2 with
      | error e =>
        simp only [phase_iters, hrp, hgd] at h
        exact Except.noConfusion h
      | ok s3 =>
        have hlog2 : s2.oracle.2 = s.oracle.2 ++ [s.oracle_epsilon] :=
          phase_loop_log E fuel _ s2 hrp
        have hlog3 : s3.oracle.2 = s.oracle.2 ++ [s.oracle_epsilon] := by
          rw [(getDistance_ok_spec (withLogEnv E) params N s2 s3 hgd).2.2.2.2.1, hlog2]
        have hrp_pres := run_auction_phase_pres (withLogEnv E) fuel
          (flush_assignment (withLogEnv E) N s) s2 hrp
        have hgd_spec := getDistance_ok_spec (withLogEnv E) params N s2 s3 hgd
        have h_eps3 : s3.oracle_epsilon = s.oracle_epsilon :=
          (hgd_spec.2.2.2.1).trans hrp_pres.1
        have h_num3 : s3.result.num_phases = s.result.num_phases + 1 :=
          (hgd_spec.2.2.2.2.2.1).trans hrp_pres.2.1
        obtain ⟨hpos, hneg, _, _⟩ :=
          c4_phase_iteration (withLogEnv E) params N fuel n s s2 s3 hrp hgd
        have main : ∀ t : RunnerState (τ × List ℚ),
            t.oracle.2 = s.oracle.2 ++ [s.oracle_epsilon] →
            t.oracle_epsilon = s.oracle_epsilon / params.epsilon_common_ratio →
            t.result.num_phases = s.result.num_phases + 1 →
            phase_iters (withLogEnv E) params N fuel n t = .ok s' →
            ∃ k, k ≤ n + 1 ∧
              s'.oracle.2 = s.oracle.2 ++
                (List.range k).map
                  (fun j => s.oracle_epsilon / params.epsilon_common_ratio ^ j) ∧
              s'.result.num_phases = s.result.num_phases + k := by
          intro t htlog hteps htnum hrun
          obtain ⟨k, hkr, hklog, hknum⟩ := ih t s' hrun
          refine ⟨k + 1, by omega, ?_, by omega⟩
          rw [hklog, htlog, hteps, List.append_assoc, geom_cons]
          rfl
        by_cases hden : (0:ℚ) < s3.result.cost - (N:ℚ) * s3.oracle_epsilon
        · obtain ⟨hbreak, hcont⟩ := hpos hden
          by_cases hrel2 : spec_rel_error (withLogEnv E) params N s3 ≤ params.delta
          · have hs' : s' = set_rel_error s3 (spec_rel_error (withLogEnv E) params N s3) :=
              (Except.ok.inj ((hbreak hrel2).symm.trans h)).symm
            subst hs'
            refine ⟨1, by omega, ?_, h_num3⟩
            show s3.oracle.2 = s.oracle.2 ++
              (List.range 1).map
                (fun j => s.oracle_epsilon / params.epsilon_common_ratio ^ j)
            rw [hlog3]
            congr 1
            show [s.oracle_epsilon]
              = [s.oracle_epsilon / params.epsilon_common_ratio ^ 0]
            rw [pow_zero, div_one]
          · refine main
              (next_epsilon params (set_rel_error s3 (spec_rel_error (withLogEnv E) params N s3)))
              hlog3 ?_ h_num3 ((hcont (not_le.mp hrel2)).symm.trans h)
            show s3.oracle_epsilon / params.epsilon_common_ratio
              = s.oracle_epsilon / params.epsilon_common_ratio
            rw [h_eps3]
        · obtain ⟨hstep, _⟩ := hneg hden
          refine main (next_epsilon params s3) hlog3 ?_ h_num3 (hstep.symm.trans h)
          show s3.oracle_epsilon / params.epsilon_common_ratio
            = s.oracle_epsilon / params.epsilon_common_ratio
          rw [h_eps3]

/-! ### C3: monotonicity of the epsilon sequence -/

/-- C3 counterexample: with `epsilon_common_ratio = 1/2` (positive, so it
passes the constructor's assertions and is not replaced) the per-phase
epsilon sequence recorded by the logging oracle is `[1, 2]` — the
sequence strictly increases, refuting monotone non-increase. -/
theorem c3_counterexample :
    Except.map (fun s => s.oracle.2)
      (run_auction_phases (withLogEnv (testEnv (fun _ _ => 0)))
        { testParams with epsilon_common_ratio := 1/2, tolerate_max_iter_exceeded := true }
        2 10 (initial_state (withLogEnv (testEnv (fun _ _ => 0))) 2 [] ([0, 0], [])))
      = .ok [1, 2] ∧
    ¬ List.Chain' (fun a b => b ≤ a) [(1:ℚ), 2] := by
  constructor
  · with_unfolding_all decide
  · rw [List.chain'_pair]
    norm_num

/-- C3 amended: provided the (constructor-asserted) initial epsilon is
positive and `epsilon_common_ratio` is at least 1, the sequence of
epsilon values used across the phases of a successful run — observed via
the logging oracle as the epsilon at each `adjust_prices` call — is
strictly positive and monotonically non-increasing.  A ratio in `(0, 1)`
passes the code's assertions but makes the sequence increase. -/
theorem c3_epsilon_monotone {τ : Type} (E : AuctionEnv τ) (params : AuctionParams)
    (N fuel : ℕ) (s0 sp : RunnerState (τ × List ℚ))
    (hpos : 0 < params.initial_epsilon)
    (hratio : 1 ≤ params.epsilon_common_ratio)
    (hlog0 : s0.oracle.2 = [])
    (hrun : run_auction_phases (withLogEnv E) params N fuel s0 = .ok sp) :
    (∀ e ∈ sp.oracle.2, 0 < e) ∧
    sp.oracle.2.Chain' (fun a b => b ≤ a) := by
  have hq : (0:ℚ) < params.epsilon_common_ratio := lt_of_lt_of_le one_pos hratio
  simp only [run_auction_phases] at hrun
  cases hpi : phase_iters (withLogEnv E) params N fuel params.max_num_phases
      (init_phase_state (withLogEnv E) params s0) with
  | error e =>
    rw [hpi] at hrun
    exact Except.noConfusion hrun
  | ok s1 =>
    rw [hpi] at hrun
    have hsp : sp = { s1 with result :=
        { s1.result with prices := (withLogEnv E).ops.get_prices s1.oracle } } :=
      (Except.ok.inj hrun).symm
    obtain ⟨k, _, hklog, _⟩ := phase_iters_log E params N fuel params.max_num_phases _ s1 hpi
    have hinitlog : (init_phase_state (withLogEnv E) params s0).oracle.2 = [] := hlog0
    have hsplog : sp.oracle.2 =
        (List.range k).map
          (fun j => params.initial_epsilon / params.epsilon_common_ratio ^ j) := by
      rw [hsp]
      show s1.oracle.2 = _
      rw [hklog, hinitlog, List.nil_append]
      rfl
    constructor
    · intro e he
      rw [hsplog] at he
      obtain ⟨j, _, hje⟩ := List.mem_map.mp he
      rw [← hje]
      exact div_pos hpos (pow_pos hq j)
    · rw [hsplog, List.chain'_map]
      cases k with
      | zero => simp
      | succ m =>
        rw [List.chain'_range_succ]
        intro i _
        exact div_le_div_of_nonneg_left hpos.le (pow_pos hq i)
          (pow_le_pow_right₀ hratio (Nat.le_succ i))

theorem c3_epsilon_monotone_witness :
    (∀ e ∈ (okOr (initial_state (withLogEnv (testEnv (fun _ _ => 0))) 0 [] ([], []))
        (run_auction_phases (withLogEnv (testEnv (fun _ _ => 0))) testParams 2 10
          (initial_state (withLogEnv (testEnv (fun _ _ => 0))) 2 [] ([0, 0], [])))).oracle.2,
      0 < e) ∧
    (okOr (initial_state (withLogEnv (testEnv (fun _ _ => 0))) 0 [] ([], []))
        (run_auction_phases (withLogEnv (testEnv (fun _ _ => 0))) testParams 2 10
          (initial_state (withLogEnv (testEnv (fun _ _ => 0))) 2 [] ([0, 0], [])))
      ).oracle.2.Chain' (fun a b => b ≤ a) :=
  c3_epsilon_monotone (testEnv (fun _ _ => 0)) testParams 2 10
    (initial_state (withLogEnv (testEnv (fun _ _ => 0))) 2 [] ([0, 0], [])) _
    (by decide) (by decide) rfl (by with_unfolding_all decide)

/-! ### C10: the reported `final_epsilon` -/

/-- C10 counterexample: with `epsilon_common_ratio = 1` an exhausted run
(final relative error `100`, above `delta`) reports `final_epsilon = 1`,
which is a member of the logged per-phase epsilon sequence `[1, 1]` —
that value was used for bidding, refuting the parenthetical "a value
never actually used for bidding in any phase". -/
theorem c10_counterexample :
    Except.map
      (fun s => (s.result.final_epsilon, s.result.final_relative_error, s.oracle.2))
      (run_auction_phases (withLogEnv (testEnv (fun _ _ => 0)))
        { testParams with epsilon_common_ratio := 1, tolerate_max_iter_exceeded := true }
        2 10 (initial_state (withLogEnv (testEnv (fun _ _ => 0))) 2 [] ([0, 0], [])))
      = .ok (1, 100, [1, 1]) ∧
    (1:ℚ) ∈ [(1:ℚ), 1] ∧
    ({ testParams with
        epsilon_common_ratio := 1
        tolerate_max_iter_exceeded := true } : AuctionParams).delta < 100 := by
  refine ⟨by with_unfolding_all decide, by decide, by with_unfolding_all decide⟩

/-- C10 amended: for a run that exhausts `max_num_phases` without
converging (final error above `delta`), `final_epsilon` equals the last
logged per-phase epsilon divided by `epsilon_common_ratio`; when the
ratio exceeds 1 (and the initial epsilon is positive) that value never
occurs in the logged sequence, i.e. was never used for bidding — but for
ratio 1 it coincides with every used epsilon.  For a run that converges,
`final_epsilon` equals the epsilon in force during the converged (last
logged) phase. -/
theorem c10_final_epsilon {τ : Type} (E : AuctionEnv τ) (params : AuctionParams)
    (N fuel : ℕ) (s0 sp : RunnerState (τ × List ℚ))
    (hlog0 : s0.oracle.2 = [])
    (hmax : params.delta < E.real_max)
    (hrun : run_auction_phases (withLogEnv E) params N fuel s0 = .ok sp) :
    (params.delta < sp.result.final_relative_error →
      sp.oracle.2.length = params.max_num_phases ∧
      (1 ≤ params.max_num_phases →
        sp.result.final_epsilon
          = sp.oracle.2.getLastD 0 / params.epsilon_common_ratio ∧
        (1 < params.epsilon_common_ratio → 0 < params.initial_epsilon →
          sp.result.final_epsilon ∉ sp.oracle.2))) ∧
    (sp.result.final_relative_error ≤ params.delta →
      sp.oracle.2 ≠ [] ∧
      sp.result.final_epsilon = sp.oracle.2.getLastD 0) := by
  simp only [run_auction_phases] at hrun
  cases hpi : phase_iters (withLogEnv E) params N fuel params.max_num_phases
      (init_phase_state (withLogEnv E) params s0) with
  | error e =>
    rw [hpi] at hrun
    exact Except.noConfusion hrun
  | ok s1 =>
    rw [hpi] at hrun
    have hsp : sp = { s1 with result :=
        { s1.result with prices := (withLogEnv E).ops.get_prices s1.oracle } } :=
      (Except.ok.inj hrun).symm
    obtain ⟨k, hkmax, hklog, hknum⟩ :=
      phase_iters_log E params N fuel params.max_num_phases _ s1 hpi
    have hinitlog : (init_phase_state (withLogEnv E) params s0).oracle.2 = [] := hlog0
    have hsplog : sp.oracle.2 =
        (List.range k).map
          (fun j => params.initial_epsilon / params.epsilon_common_ratio ^ j) := by
      rw [hsp]
      show s1.oracle.2 = _
      rw [hklog, hinitlog, List.nil_append]
      rfl
    have hinit_rel : params.delta <
        (init_phase_state (withLogEnv E) params s0).result.final_relative_error := hmax
    have hinit_fe : (init_phase_state (withLogEnv E) params s0).result.final_epsilon
        = (init_phase_state (withLogEnv E) params s0).oracle_epsilon := rfl
    have hcases := phase_iters_cases (withLogEnv E) params N fuel params.max_num_phases
      _ s1 hpi hinit_rel hinit_fe
    have hsp_rel : sp.result.final_relative_error = s1.result.final_relative_error := by
      rw [hsp]
    have hsp_fe : sp.result.final_epsilon = s1.result.final_epsilon := by
      rw [hsp]
    have hsp_num : sp.result.num_phases = s1.result.num_phases := by
      rw [hsp]
    have hsp_eps : sp.oracle_epsilon = s1.oracle_epsilon := by
      rw [hsp]
    constructor
    · intro hnoconv
      rcases hcases with ⟨_, hnum, heps, hfe⟩ | ⟨hconv, _, _, _, _⟩
      · have hkm : k = params.max_num_phases := by
          have h1 : s1.result.num_phases =
              (init_phase_state (withLogEnv E) params s0).result.num_phases
              + params.max_num_phases := hnum
          omega
        constructor
        · rw [hsplog, List.length_map, List.length_range]
          exact hkm
        · intro hone
          obtain ⟨m, hm⟩ : ∃ m, k = m + 1 := ⟨k - 1, by omega⟩
          have hlast : sp.oracle.2.getLastD 0
              = params.initial_epsilon / params.epsilon_common_ratio ^ m := by
            rw [hsplog, hm, List.range_succ, List.map_append, List.map_cons, List.map_nil,
              getLastD_concat]
          have hfeval : sp.result.final_epsilon
              = params.initial_epsilon / params.epsilon_common_ratio ^ k := by
            rw [hsp_fe, hfe, heps, hkm]
            rfl
          constructor
          · rw [hfeval, hlast, hm, div_div, ← pow_succ]
          · intro hq1 hpos hmem
            have hq : (0:ℚ) < params.epsilon_common_ratio :=
              lt_trans one_pos hq1
            rw [hsplog] at hmem
            obtain ⟨j, hjmem, hje⟩ := List.mem_map.mp hmem
            have hjk : j < k := List.mem_range.mp hjmem
            have hlt : params.initial_epsilon / params.epsilon_common_ratio ^ k
                < params.initial_epsilon / params.epsilon_common_ratio ^ j :=
              div_lt_div_of_pos_left hpos (pow_pos hq j)
                (pow_lt_pow_right₀ hq1 hjk)
            rw [hfeval] at hje
            rw [hje] at hlt
            exact lt_irrefl _ hlt
      · exact absurd hconv (not_le.mpr (hsp_rel ▸ hnoconv))
    · intro hconv
      rcases hcases with ⟨hnoc, _, _, _⟩ | ⟨_, hlt, hle, heps, hfe⟩
      · exact absurd (hsp_rel ▸ hconv) (not_le.mpr hnoc)
      · have hkd : k = s1.result.num_phases
            - (init_phase_state (withLogEnv E) params s0).result.num_phases := by omega
        have hk1 : 1 ≤ k := by omega
        obtain ⟨m, hm⟩ : ∃ m, k = m + 1 := ⟨k - 1, by omega⟩
        have hlast : sp.oracle.2.getLastD 0
            = params.initial_epsilon / params.epsilon_common_ratio ^ m := by
          rw [hsplog, hm, List.range_succ, List.map_append, List.map_cons, List.map_nil,
            getLastD_concat]
        constructor
        · rw [hsplog, hm]
          simp [List.range_succ]
        · have hmexp : s1.result.num_phases
              - (init_phase_state (withLogEnv E) params s0).result.num_phases - 1 = m := by
            omega
          rw [hsp_fe, hfe, heps, hmexp, hlast]
          rfl

theorem c10_final_epsilon_witness :
    (testParams.delta <
      (okOr (initial_state (withLogEnv (testEnv (fun _ _ => 0))) 0 [] ([], []))
        (run_auction_phases (withLogEnv (testEnv (fun _ _ => 0))) testParams 2 10
          (initial_state (withLogEnv (testEnv (fun _ _ => 0))) 2 [] ([0, 0], [])))
        ).result.final_relative_error →
      (okOr (initial_state (withLogEnv (testEnv (fun _ _ => 0))) 0 [] ([], []))
        (run_auction_phases (withLogEnv (testEnv (fun _ _ => 0))) testParams 2 10
          (initial_state (withLogEnv (testEnv (fun _ _ => 0))) 2 [] ([0, 0], [])))
        ).oracle.2.length = testParams.max_num_phases ∧
      (1 ≤ testParams.max_num_phases →
        (okOr (initial_state (withLogEnv (testEnv (fun _ _ => 0))) 0 [] ([], []))
          (run_auction_phases (withLogEnv (testEnv (fun _ _ => 0))) testParams 2 10
            (initial_state (withLogEnv (testEnv (fun _ _ => 0))) 2 [] ([0, 0], [])))
          ).result.final_epsilon =
          (okOr (initial_state (withLogEnv (testEnv (fun _ _ => 0))) 0 [] ([], []))
            (run_auction_phases (withLogEnv (testEnv (fun _ _ => 0))) testParams 2 10
              (initial_state (withLogEnv (testEnv (fun _ _ => 0))) 2 [] ([0, 0], [])))
            ).oracle.2.getLastD 0 / testParams.epsilon_common_ratio ∧
        (1 < testParams.epsilon_common_ratio → 0 < testParams.initial_epsilon →
          (okOr (initial_state (withLogEnv (testEnv (fun _ _ => 0))) 0 [] ([], []))
            (run_auction_phases (withLogEnv (testEnv (fun _ _ => 0))) testParams 2 10
              (initial_state (withLogEnv (testEnv (fun _ _ => 0))) 2 [] ([0, 0], [])))
            ).result.final_epsilon ∉
            (okOr (initial_state (withLogEnv (testEnv (fun _ _ => 0))) 0 [] ([], []))
              (run_auction_phases (withLogEnv (testEnv (fun _ _ => 0))) testParams 2 10
                (initial_state (withLogEnv (testEnv (fun _ _ => 0))) 2 [] ([0, 0], [])))
              ).oracle.2))) ∧
    ((okOr (initial_state (withLogEnv (testEnv (fun _ _ => 0))) 0 [] ([], []))
        (run_auction_phases (withLogEnv (testEnv (fun _ _ => 0))) testParams 2 10
          (initial_state (withLogEnv (testEnv (fun _ _ => 0))) 2 [] ([0, 0], [])))
        ).result.final_relative_error ≤ testParams.delta →
      (okOr (initial_state (withLogEnv (testEnv (fun _ _ => 0))) 0 [] ([], []))
        (run_auction_phases (withLogEnv (testEnv (fun _ _ => 0))) testParams 2 10
          (initial_state (withLogEnv (testEnv (fun _ _ => 0))) 2 [] ([0, 0], [])))
        ).oracle.2 ≠ [] ∧
      (okOr (initial_state (withLogEnv (testEnv (fun _ _ => 0))) 0 [] ([], []))
        (run_auction_phases (withLogEnv (testEnv (fun _ _ => 0))) testParams 2 10
          (initial_state (withLogEnv (testEnv (fun _ _ => 0))) 2 [] ([0, 0], [])))
        ).result.final_epsilon =
        (okOr (initial_state (withLogEnv (testEnv (fun _ _ => 0))) 0 [] ([], []))
          (run_auction_phases (withLogEnv (testEnv (fun _ _ => 0))) testParams 2 10
            (initial_state (withLogEnv (testEnv (fun _ _ => 0))) 2 [] ([0, 0], [])))
          ).oracle.2.getLastD 0) :=
  c10_final_epsilon (testEnv (fun _ _ => 0)) testParams 2 10
    (initial_state (withLogEnv (testEnv (fun _ _ => 0))) 2 [] ([0, 0], [])) _
    rfl (by with_unfolding_all decide) (by with_unfolding_all decide)

end HeraWS
